import Mathlib

/-!
Verification development for update_project_publications.py, a pipeline that
fetches publication identifiers from a REST API, enriches each identifier into
a Publication record (author formatting plus link resolution), aggregates them
all-or-nothing, sorts them, and renders them to a YAML-like text format.

The embedding models Python runtime errors (KeyError, TypeError, IndexError,
and json decoding errors) with an explicit Except monad.  Machine-level detail
values are modelled by the JVal JSON tree.  Where CPython stores a raw dynamic
value and only surfaces a type mismatch at a later use site (string formatting,
sort key negation, rendering), this embedding requires the expected type at
extraction time; all results below stay inside the well-typed fragment where
the two agree.  A JSON null DOI and an empty-string DOI are identified, since
both are falsy in the single truthiness test applied to the DOI.
-/

/-- Python runtime error kinds that the modelled code can raise. -/
inductive PyErr where
  | keyError
  | typeError
  | indexError
  | jsonError
deriving DecidableEq

/-- Boolean success test for an Except computation. -/
def isOkB {ε α : Type} : Except ε α → Bool
  | Except.ok _ => true
  | Except.error _ => false

/-- Error-propagating sequencing of two Python statements: an uncaught
exception in the first aborts the rest. -/
def exBind {ε α β : Type} (m : Except ε α) (f : α → Except ε β) : Except ε β :=
  match m with
  | Except.error e => Except.error e
  | Except.ok a => f a

/-- Ordered effectful map, modelling both a sequential append loop and
pool.map (which preserves input order and re-raises a worker exception). -/
def mapE {ε α β : Type} (f : α → Except ε β) : List α → Except ε (List β)
  | [] => Except.ok []
  | x :: xs =>
    match f x with
    | Except.error e => Except.error e
    | Except.ok y =>
      match mapE f xs with
      | Except.error e => Except.error e
      | Except.ok ys => Except.ok (y :: ys)

/-- Decides whether the first list is an initial segment of the second. -/
def listPre : List Char → List Char → Bool
  | a :: as, b :: bs => a == b && listPre as bs
  | remaining, _ => remaining.isEmpty

/-- Python substring containment: strIn needle hay models needle in hay. -/
def strIn (needle : List Char) : List Char → Bool
  | [] => needle.isEmpty
  | b :: bs => listPre needle (b :: bs) || strIn needle bs

/-! ## Model of re.findall with the pattern (https?:.*?)\" -/

/-- Scan up to the first double quote on the current line: returns the
characters before the quote and the rest after it, or none when a newline or
the end of input comes first (the dot of the pattern does not match a
newline). -/
def splitAtQuote : List Char → Option (List Char × List Char)
  | [] => none
  | c :: cs =>
    if c == '"' then some ([], cs)
    else if c == '\n' then none
    else match splitAtQuote cs with
      | some (a, b) => some (c :: a, b)
      | none => none

/-- The alternation https?: matched at the head of the input. -/
def httpPre : List Char → Option (List Char × List Char)
  | 'h' :: 't' :: 't' :: 'p' :: 's' :: ':' :: r => some (['h','t','t','p','s',':'], r)
  | 'h' :: 't' :: 't' :: 'p' :: ':' :: r => some (['h','t','t','p',':'], r)
  | _ => none

/-- One match attempt of (https?:.*?)\" anchored at the head of the input:
the captured group and the input remaining after the closing quote. -/
def urlMatch (l : List Char) : Option (List Char × List Char) :=
  match httpPre l with
  | none => none
  | some (pre, r) =>
    match splitAtQuote r with
    | none => none
    | some (mid, rest) => some (pre ++ mid, rest)

/-- Left-to-right non-overlapping scan of re.findall, fuelled by the input
length (each step consumes at least one character). -/
def findUrlsAux : Nat → List Char → List (List Char)
  | 0, _ => []
  | _ + 1, [] => []
  | fuel + 1, c :: cs =>
    match urlMatch (c :: cs) with
    | some (u, rest) => u :: findUrlsAux fuel rest
    | none => findUrlsAux fuel cs

/-- All captures of re.findall with URL_REGEX over the harvard text. -/
def findUrls (s : String) : List String :=
  (findUrlsAux s.data.length s.data).map (fun l => String.mk l)

/-! ## Model of re.findall with the pattern https?://doi.org/(.*) -/

/-- The prefix part https?://doi.org/ matched at the head of the input; the
dot between doi and org is a wildcard for any character except newline. -/
def doiPrefixMatch : List Char → Option (List Char)
  | 'h' :: 't' :: 't' :: 'p' :: 's' :: ':' :: '/' :: '/' :: 'd' :: 'o' :: 'i' :: c :: 'o' :: 'r' :: 'g' :: '/' :: r =>
    if c == '\n' then none else some r
  | 'h' :: 't' :: 't' :: 'p' :: ':' :: '/' :: '/' :: 'd' :: 'o' :: 'i' :: c :: 'o' :: 'r' :: 'g' :: '/' :: r =>
    if c == '\n' then none else some r
  | _ => none

/-- findall scan for the DOI pattern: the greedy captured group (.*) runs to
the end of the current line, and scanning resumes there. -/
def findDoiAux : Nat → List Char → List (List Char)
  | 0, _ => []
  | _ + 1, [] => []
  | fuel + 1, c :: cs =>
    match doiPrefixMatch (c :: cs) with
    | some r => r.takeWhile (fun ch => ch != '\n') :: findDoiAux fuel (r.dropWhile (fun ch => ch != '\n'))
    | none => findDoiAux fuel cs

/-- All captures of re.findall with DOI_LINK_DISPLAY_REGEX over the doi. -/
def findDoi (s : String) : List String :=
  (findDoiAux s.data.length s.data).map (fun l => String.mk l)

/-! ## Record data -/

/-- One entry of the raw persons list of a publication detail record. -/
structure Person where
  firstname : String
  lastname : String
  role : String
deriving DecidableEq

/-- The in-memory publication record built by Publication.__init__. -/
structure Publication where
  pure_id : String
  title : String
  authors : String
  first_author : String
  year : Int
  harvard : String
  link_url : String
  link_display : String
  description : String
deriving DecidableEq

/-- The fixed display label NO_DOI_LINK_DISPLAY. -/
def NO_DOI_LINK_DISPLAY : String := "Read more"

/-- The institutional repository host filtered for in the harvard URLs. -/
def eprintsHost : String := "eprints.soton.ac.uk"

/-- Publication._format_authors: builds the comprehension
[fmt if role == "Author" else None for x in persons] and then joins it with
", ".  A None entry (a contributor whose role is not Author) makes
str.join raise TypeError. -/
def format_authors (persons : List Person) : Except PyErr String :=
  let entries := persons.map (fun x =>
    if x.role = "Author" then some (x.firstname ++ " " ++ x.lastname) else none)
  if entries.all Option.isSome then
    Except.ok (String.intercalate ", " (entries.filterMap id))
  else
    Except.error PyErr.typeError

/-- Publication.add_link_from_doi: threads the current (link_url,
link_display) state and overwrites it only when the DOI pattern matches;
with several matches the first one is used. -/
def add_link_from_doi (doi : String) (st : String × String) : String × String :=
  match findDoi doi with
  | [] => st
  | d :: _ => (doi, d)

/-- The Python expression xs[0] together with the assignment of the fixed
display label, as executed on the final line of add_link. -/
def headLink (l : List String) : Except PyErr (String × String) :=
  match l with
  | [] => Except.error PyErr.indexError
  | u :: _ => Except.ok (u, NO_DOI_LINK_DISPLAY)

/-- Publication.add_link on harvard text and doi, starting from the current
(link_url, link_display) state st (the empty pair at construction time).
Mirrors the source control flow exactly, including the branch that would
fall through to eprints_urls[0] on an empty list. -/
def add_link (harvard doi : String) (st : String × String) : Except PyErr (String × String) :=
  let urls := findUrls harvard
  if urls.length = 0 then
    (if doi ≠ "" then Except.ok (add_link_from_doi doi st) else Except.ok st)
  else
    let eprints_urls := urls.filter (fun s => strIn eprintsHost.data s.data)
    if 1 < eprints_urls.length then
      headLink eprints_urls
    else if eprints_urls.length = 0 then
      (if doi ≠ "" then Except.ok (add_link_from_doi doi st)
       else if 1 ≤ urls.length then headLink urls
       else headLink eprints_urls)
    else
      headLink eprints_urls

/-! ## Rendering (Publication.__str__ and write_publications) -/

/-- Decimal digit character, as produced by the CPython str of an int. -/
def digitCh (n : Nat) : Char :=
  match n with
  | 0 => '0' | 1 => '1' | 2 => '2' | 3 => '3' | 4 => '4'
  | 5 => '5' | 6 => '6' | 7 => '7' | 8 => '8' | 9 => '9'
  | _ => '*'

/-- Decimal digits of a natural number, most significant first, fuelled. -/
def natDigitsAux : Nat → Nat → List Char
  | 0, _ => []
  | fuel + 1, n =>
    if n < 10 then [digitCh n]
    else natDigitsAux fuel (n / 10) ++ [digitCh (n % 10)]

/-- Decimal digits of a natural number, most significant first. -/
def natDigits (n : Nat) : List Char := natDigitsAux (n + 1) n

/-- CPython str of an int: optional minus sign plus decimal digits. -/
def intStr (i : Int) : String :=
  if i < 0 then "-" ++ String.mk (natDigits i.natAbs)
  else String.mk (natDigits i.toNat)

/-- Publication.__str__: the YAML-like block for one publication. -/
def pubStr (p : Publication) : String :=
  "- title: \"" ++ p.title ++ "\"\n"
  ++ "  description: " ++ p.description ++ "\n"
  ++ "  authors: " ++ p.authors ++ "\n"
  ++ "  year: " ++ intStr p.year ++ "\n"
  ++ "  harvard: |\n    " ++ p.harvard ++ "\n"
  ++ "  link:\n"
  ++ "    url: " ++ p.link_url ++ "\n"
  ++ "    display: " ++ p.link_display ++ "\n"

/-- write_publications: for each publication write its block followed by one
extra newline.  The produced text stands for the full new file contents (the
file is opened in mode w, so prior contents are replaced). -/
def write_publications (ps : List Publication) : String :=
  match ps with
  | [] => ""
  | p :: rest => pubStr p ++ "\n" ++ write_publications rest

/-! ## JSON values and the dynamic accesses performed on them -/

/-- JSON tree as delivered by response.json(). -/
inductive JVal where
  | null
  | int (n : Int)
  | str (s : String)
  | arr (xs : List JVal)
  | obj (fields : List (String × JVal))

/-- Key lookup in the field list of a JSON object. -/
def jLookup : List (String × JVal) → String → Option JVal
  | [], _ => none
  | (k, v) :: rest, key => if k = key then some v else jLookup rest key

/-- Python subscript d[key]: KeyError when the key is absent, TypeError when
the subscripted value is not a dict. -/
def JVal.getKey : JVal → String → Except PyErr JVal
  | JVal.obj fs, key =>
    match jLookup fs key with
    | some v => Except.ok v
    | none => Except.error PyErr.keyError
  | _, _ => Except.error PyErr.typeError

/-- Python iteration over a JSON value: lists yield elements, dicts yield
their keys, strings yield one-character strings, other values raise
TypeError. -/
def pyIter : JVal → Except PyErr (List JVal)
  | JVal.arr xs => Except.ok xs
  | JVal.obj fs => Except.ok (fs.map (fun f => JVal.str f.1))
  | JVal.str s => Except.ok (s.data.map (fun c => JVal.str (String.mk [c])))
  | _ => Except.error PyErr.typeError

/-- Python subscript x[0]. -/
def pyIndexZero : JVal → Except PyErr JVal
  | JVal.arr (x :: _) => Except.ok x
  | JVal.arr [] => Except.error PyErr.indexError
  | JVal.str s =>
    match s.data with
    | c :: _ => Except.ok (JVal.str (String.mk [c]))
    | [] => Except.error PyErr.indexError
  | JVal.obj _ => Except.error PyErr.keyError
  | _ => Except.error PyErr.typeError

/-- Expect a string value. -/
def JVal.asStr : JVal → Except PyErr String
  | JVal.str s => Except.ok s
  | _ => Except.error PyErr.typeError

/-- Expect an integer value. -/
def JVal.asInt : JVal → Except PyErr Int
  | JVal.int n => Except.ok n
  | _ => Except.error PyErr.typeError

/-- Expect a string or null; null is identified with the empty string, which
is equivalent here because the DOI is only ever tested for truthiness. -/
def JVal.asStrOrNull : JVal → Except PyErr String
  | JVal.str s => Except.ok s
  | JVal.null => Except.ok ""
  | _ => Except.error PyErr.typeError

/-- Extraction of one entry of the persons list. -/
def asPerson (j : JVal) : Except PyErr Person :=
  match j with
  | JVal.obj fs =>
    exBind (match jLookup fs "firstname" with
      | some v => JVal.asStr v
      | none => Except.error PyErr.keyError) fun f =>
    exBind (match jLookup fs "lastname" with
      | some v => JVal.asStr v
      | none => Except.error PyErr.keyError) fun l =>
    exBind (match jLookup fs "role" with
      | some v => JVal.asStr v
      | none => Except.error PyErr.keyError) fun r =>
    Except.ok { firstname := f, lastname := l, role := r }
  | _ => Except.error PyErr.typeError

/-- Extraction of the persons list. -/
def asPersons (j : JVal) : Except PyErr (List Person) :=
  match j with
  | JVal.arr xs => mapE asPerson xs
  | _ => Except.error PyErr.typeError

/-- Publication.__init__ on the raw details value, in source order: title,
persons (via _format_authors), first_author from persons[0], year, harvard,
then add_link on harvard and doi starting from the empty link state.
Modelling note: CPython stores each extracted value unchecked and only
surfaces a type mismatch at a later use site (string formatting, sorting,
rendering), so __init__ itself completes even on, say, an integer title;
this embedding types the fields at extraction and raises typeError there
instead.  Theorems about construction therefore rely on this model only in
directions valid for the source as well: failure on an absent key (a dict
subscript KeyError) and completion of whole pipeline runs on well-typed
shapes, where the deferred and the immediate mismatch coincide in effect. -/
def Publication.init (pure_id : String) (details : JVal) : Except PyErr Publication :=
  exBind (details.getKey "title") fun titleJ =>
  exBind titleJ.asStr fun title =>
  exBind (details.getKey "persons") fun personsJ =>
  exBind (asPersons personsJ) fun persons =>
  exBind (format_authors persons) fun authors =>
  exBind (match persons with
    | [] => Except.error PyErr.indexError
    | p :: _ => Except.ok p.lastname) fun first_author =>
  exBind (details.getKey "year") fun yearJ =>
  exBind yearJ.asInt fun year =>
  exBind (details.getKey "harvard") fun harvardJ =>
  exBind harvardJ.asStr fun harvard =>
  exBind (details.getKey "doi") fun doiJ =>
  exBind doiJ.asStrOrNull fun doi =>
  exBind (add_link harvard doi ("", "")) fun link =>
  Except.ok { pure_id := pure_id, title := title, authors := authors,
              first_author := first_author, year := year, harvard := harvard,
              link_url := link.1, link_display := link.2, description := "" }

/-! ## Transport layer and orchestration -/

/-- Outcome of one HTTP GET in the remote environment: unreachable models a
requests ConnectionError, reply carries the status code and the body, where
none stands for a body that is not valid JSON (response.json() raises). -/
inductive HttpAnswer where
  | unreachable
  | reply (status : Nat) (body : Option JVal)

/-- A remote-response environment: the answer for every request URL. -/
def Env : Type := String → HttpAnswer

/-- Fixed service constants of the script. -/
def PROJECT_ID : String := "520617"

/-- Base address of the remote API. -/
def BASE_URL : String := "https://api-pure.soton.ac.uk"

/-- rest_get: builds the URL, returns none on connection failure or non-200
status (both only logged), the parsed body on success, and raises when a 200
body is not valid JSON. -/
def rest_get (env : Env) (base_url endpoint query : String) : Except PyErr (Option JVal) :=
  match env (base_url ++ "/" ++ endpoint ++ "/" ++ query) with
  | HttpAnswer.unreachable => Except.ok none
  | HttpAnswer.reply status body =>
    if status = 200 then
      match body with
      | none => Except.error PyErr.jsonError
      | some j => Except.ok (some j)
    else Except.ok none

/-- get_publication_ids: fetch the project listing and collect the pureId of
every entry of its outputs member. -/
def get_publication_ids (env : Env) : Except PyErr (Option (List JVal)) :=
  exBind (rest_get env BASE_URL "project" PROJECT_ID) fun resp =>
  match resp with
  | none => Except.ok none
  | some j =>
    exBind (j.getKey "outputs") fun outs =>
    exBind (pyIter outs) fun items =>
    exBind (mapE (fun it => it.getKey "pureId") items) fun ids =>
    Except.ok (some ids)

/-- Python test count != 1 specialised to the JSON count value. -/
def JVal.isIntOne : JVal → Bool
  | JVal.int 1 => true
  | _ => false

/-- enrich_publication: fetch the detail record for one Pure ID and build a
Publication; returns none when the fetch fails or the count is not one. -/
def enrich_publication (env : Env) (pure_id : JVal) : Except PyErr (Option Publication) :=
  match pure_id with
  | JVal.str pid =>
    exBind (rest_get env BASE_URL "." ("outputs?limit=1&offset=0&guids=" ++ pid)) fun resp =>
    match resp with
    | none => Except.ok none
    | some j =>
      exBind (j.getKey "count") fun cnt =>
      if cnt.isIntOne then
        exBind (j.getKey "publications") fun pubsJ =>
        exBind (pyIndexZero pubsJ) fun d =>
        exBind (Publication.init pid d) fun p =>
        Except.ok (some p)
      else Except.ok none
  | _ => Except.error PyErr.typeError

/-- The sort key comparison of main: ascending in the key tuple
(-year, first_author), that is year descending then first author ascending,
with strings compared lexicographically by code point. -/
def pubR (x y : Publication) : Prop :=
  y.year < x.year ∨
    (x.year = y.year ∧
      (x.first_author.data < y.first_author.data ∨ x.first_author.data = y.first_author.data))

instance : DecidableRel pubR :=
  fun _ _ => inferInstanceAs (Decidable (_ ∨ _))

/-- The stable ascending sort performed by list.sort with the key above.
Insertion sort is extensionally the unique stable sort for a total
preorder, hence a faithful model of the CPython sort. -/
def sortPublications (ps : List Publication) : List Publication :=
  List.insertionSort pubR ps

/-- main: fetch the identifier list, enrich every identifier, abort with
status 1 (and no output at all) when the listing failed or any enrichment
returned None, else sort and emit the rendered text.  The second component
is the written output: none models an untouched output target. -/
def Pipeline.main (env : Env) : Except PyErr (Int × Option String) :=
  exBind (get_publication_ids env) fun ids? =>
  match ids? with
  | none => Except.ok (1, none)
  | some ids =>
    exBind (mapE (enrich_publication env) ids) fun pubs =>
    if pubs.any (fun o => o.isNone) then
      Except.ok (1, none)
    else
      Except.ok (0, some (write_publications (sortPublications (pubs.filterMap id))))

/-! ## Definitions following the wording of the specification

These are not translations of the source; they formalise phrases of the
specification so that refinement claims can compare them with the code. -/

/-- The authority part of a URL string: the characters after the first
occurrence of the separator colon-slash-slash. -/
def afterScheme : List Char → Option (List Char)
  | [] => none
  | ':' :: '/' :: '/' :: r => some r
  | _ :: t => afterScheme t

/-- Modelled from the spec: the host of a URL, the authority cut at the
first slash, colon, question mark or hash. -/
def hostOf (s : String) : String :=
  match afterScheme s.data with
  | none => ""
  | some r => String.mk (r.takeWhile (fun c => !(c == '/' || c == ':' || c == '?' || c == '#')))

/-- Modelled from the spec: a URL whose host is the institutional
repository host. -/
def specInstitutional (u : String) : Bool :=
  hostOf u == eprintsHost

/-- Modelled from the spec: the first URL in extraction order whose host is
the institutional repository host. -/
def specFirstInstitutional (harvard : String) : Option String :=
  (findUrls harvard).find? specInstitutional

/-! ## Shape predicates on raw JSON detail values -/

/-- One contributor entry on which Publication construction can succeed: the
three keys are present with string values and the role is Author (any
contributor with another role makes the join in _format_authors raise). -/
def personOk : JVal → Bool
  | JVal.obj fs =>
    (match jLookup fs "firstname" with
      | some (JVal.str _) => true
      | _ => false) &&
    (match jLookup fs "lastname" with
      | some (JVal.str _) => true
      | _ => false) &&
    (match jLookup fs "role" with
      | some (JVal.str r) => r == "Author"
      | _ => false)
  | _ => false

/-- A raw details value on which Publication construction succeeds: all five
required keys present with values of the expected shapes, a nonempty persons
list, and every contributor an Author. -/
def detailsComplete : JVal → Bool
  | JVal.obj fs =>
    (match jLookup fs "title" with
      | some (JVal.str _) => true
      | _ => false) &&
    (match jLookup fs "persons" with
      | some (JVal.arr ps) => !ps.isEmpty && ps.all personOk
      | _ => false) &&
    (match jLookup fs "year" with
      | some (JVal.int _) => true
      | _ => false) &&
    (match jLookup fs "harvard" with
      | some (JVal.str _) => true
      | _ => false) &&
    (match jLookup fs "doi" with
      | some (JVal.str _) => true
      | some JVal.null => true
      | _ => false)
  | _ => false

/-- The URL requested for the project listing. -/
def projectUrl : String := BASE_URL ++ "/" ++ "project" ++ "/" ++ PROJECT_ID

/-- The URL requested for the detail record of one Pure ID. -/
def detail_url (pid : String) : String :=
  BASE_URL ++ "/" ++ "." ++ "/" ++ ("outputs?limit=1&offset=0&guids=" ++ pid)

/-- A project listing body that parses without raising: an outputs array
whose entries all carry a string pureId. -/
def goodProjectBody : JVal → Bool
  | JVal.obj fs =>
    (match jLookup fs "outputs" with
      | some (JVal.arr items) =>
        items.all (fun it =>
          match it with
          | JVal.obj gs =>
            (match jLookup gs "pureId" with
              | some (JVal.str _) => true
              | _ => false)
          | _ => false)
      | _ => false)
  | _ => false

/-- A detail body on which enrichment does not raise: a count key is present;
when the count is one, the publications member must be a nonempty array whose
first element is a complete details value. -/
def goodDetailBody : JVal → Bool
  | JVal.obj fs =>
    (match jLookup fs "count" with
      | some c =>
        if c.isIntOne then
          (match jLookup fs "publications" with
            | some (JVal.arr (d :: _)) => detailsComplete d
            | _ => false)
        else true
      | none => false)
  | _ => false

/-- An HTTP answer that cannot make the pipeline raise, given a shape
predicate for a well-formed 200 body. -/
def goodAnswer (shape : JVal → Bool) : HttpAnswer → Prop
  | HttpAnswer.unreachable => True
  | HttpAnswer.reply status body =>
    status ≠ 200 ∨ ∃ j, body = some j ∧ shape j = true

/-- An environment in which every response consumed by the pipeline is
either unreachable, a non-200 reply, or well-formed JSON of the expected
shape. -/
def BenignEnv (env : Env) : Prop :=
  goodAnswer goodProjectBody (env projectUrl) ∧
  ∀ pid : String, goodAnswer goodDetailBody (env (detail_url pid))

/-! ## Field-by-field re-parsing of the rendered text -/

/-- The four fields the round-trip property recovers from a rendered
block. -/
structure ParsedPub where
  ptitle : String
  pyear : Option Int
  purl : String
  pdisplay : String
deriving DecidableEq

/-- Drop the given prefix from a line, or fail. -/
def stripPre : List Char → List Char → Option (List Char)
  | [], l => some l
  | _ :: _, [] => none
  | a :: as, b :: bs => if a == b then stripPre as bs else none

/-- Decimal digit value of a character, via its code point. -/
def digToVal (c : Char) : Option Nat :=
  let v := c.toNat
  if 48 ≤ v ∧ v ≤ 57 then some (v - 48) else none

/-- Parse an unsigned decimal numeral. -/
def parseNatList (l : List Char) : Option Nat :=
  l.foldl (fun acc c =>
    match acc, digToVal c with
    | some a, some d => some (a * 10 + d)
    | _, _ => none) (some 0)

/-- Parse an optionally negated decimal numeral. -/
def parseIntList (l : List Char) : Option Int :=
  match l with
  | '-' :: rest => (parseNatList rest).map (fun n => -(n : Int))
  | _ => (parseNatList l).map (fun n => (n : Int))

/-- The value of a title line: the text after the opening quote, with a
closing quote stripped when present. -/
def parseTitleVal (l : List Char) : String :=
  match l.getLast? with
  | some '"' => String.mk l.dropLast
  | _ => String.mk l

/-- The line prefixes of the four recovered fields. -/
def titlePreL : List Char := "- title: \"".data

/-- Prefix of the year line. -/
def yearPreL : List Char := "  year: ".data

/-- Prefix of the url line. -/
def urlPreL : List Char := "    url: ".data

/-- Prefix of the display line. -/
def dispPreL : List Char := "    display: ".data

/-- Line-by-line field collection: a title line opens a new record and
flushes the current one; later field lines overwrite the current record, so
the last occurrence of a field line inside a block wins. -/
def parseAux : List (List Char) → Option ParsedPub → List ParsedPub
  | [], none => []
  | [], some p => [p]
  | ln :: rest, cur =>
    match stripPre titlePreL ln with
    | some v =>
      (match cur with
       | none => parseAux rest (some ⟨parseTitleVal v, none, "", ""⟩)
       | some p => p :: parseAux rest (some ⟨parseTitleVal v, none, "", ""⟩))
    | none =>
      match cur with
      | none => parseAux rest none
      | some p =>
        match stripPre yearPreL ln with
        | some v => parseAux rest (some { p with pyear := parseIntList v })
        | none =>
          match stripPre urlPreL ln with
          | some v => parseAux rest (some { p with purl := String.mk v })
          | none =>
            match stripPre dispPreL ln with
            | some v => parseAux rest (some { p with pdisplay := String.mk v })
            | none => parseAux rest cur

/-- Split a character list at newlines. -/
def splitLines : List Char → List (List Char)
  | [] => [[]]
  | c :: cs =>
    if c == '\n' then [] :: splitLines cs
    else
      match splitLines cs with
      | [] => [[c]]
      | l :: ls => (c :: l) :: ls

/-- Field-by-field re-parsing of a rendered publication file. -/
def parsePublications (s : String) : List ParsedPub :=
  parseAux (splitLines s.data) none

/-- The four recovered fields of a publication, as the round-trip property
expects them. -/
def expectedParsed (p : Publication) : ParsedPub :=
  ⟨p.title, some p.year, p.link_url, p.link_display⟩

/-- A string free of newline characters. -/
def noNL (s : String) : Prop := '\n' ∉ s.data

/-- The rendered-field well-formedness used by the amended round-trip claim:
every string field that the renderer writes into a line is newline-free. -/
def renderSafe (p : Publication) : Prop :=
  noNL p.title ∧ noNL p.description ∧ noNL p.authors ∧ noNL p.harvard ∧
    noNL p.link_url ∧ noNL p.link_display

/-! ## Concrete inputs used by witnesses and counterexamples -/

/-- A citation text whose first extracted URL merely contains the
institutional host as a substring of its query (its host is a.b), while the
second extracted URL really has the institutional host. -/
def mixedHarvard : String :=
  "see \"https://a.b/?eprints.soton.ac.uk\" and \"https://eprints.soton.ac.uk/1\" end"

/-- A complete raw detail record. -/
def goodDetailsJ : JVal :=
  JVal.obj [("title", JVal.str "T"),
    ("persons", JVal.arr [JVal.obj [("firstname", JVal.str "A"),
      ("lastname", JVal.str "B"), ("role", JVal.str "Author")]]),
    ("year", JVal.int 2020), ("harvard", JVal.str "h"), ("doi", JVal.str "")]

/-- A raw detail record with the title key missing. -/
def noTitleDetailsJ : JVal :=
  JVal.obj [("persons", JVal.arr [JVal.obj [("firstname", JVal.str "A"),
    ("lastname", JVal.str "B"), ("role", JVal.str "Author")]]),
    ("year", JVal.int 2020), ("harvard", JVal.str "h"), ("doi", JVal.str "")]

/-- A project listing body with two identifiers. -/
def projBodyJ : JVal :=
  JVal.obj [("outputs", JVal.arr [JVal.obj [("pureId", JVal.str "a")],
    JVal.obj [("pureId", JVal.str "b")]])]

/-- An environment where identifier a enriches successfully while the detail
request of identifier b is unreachable. -/
def c1Env : Env := fun url =>
  if url = projectUrl then HttpAnswer.reply 200 (some projBodyJ)
  else if url = detail_url "a" then
    HttpAnswer.reply 200 (some (JVal.obj [("count", JVal.int 1),
      ("publications", JVal.arr [goodDetailsJ])]))
  else HttpAnswer.unreachable

/-- An environment where the single identifier a yields a 200 detail reply
with count one whose detail record is missing the title key, so Publication
construction raises KeyError inside the enrichment. -/
def c1BadEnv : Env := fun url =>
  if url = projectUrl then
    HttpAnswer.reply 200 (some (JVal.obj [("outputs",
      JVal.arr [JVal.obj [("pureId", JVal.str "a")]])]))
  else if url = detail_url "a" then
    HttpAnswer.reply 200 (some (JVal.obj [("count", JVal.int 1),
      ("publications", JVal.arr [noTitleDetailsJ])]))
  else HttpAnswer.unreachable

/-- An environment returning a 200 project reply whose body is not valid
JSON. -/
def c8Env : Env := fun url =>
  if url = projectUrl then HttpAnswer.reply 200 none else HttpAnswer.unreachable

/-- An environment in which every request fails at the transport level. -/
def unreachableEnv : Env := fun _ => HttpAnswer.unreachable

/-- First publication of the sorting example of the specification. -/
def smithPub : Publication := ⟨"s", "", "", "Smith", 2021, "", "", "", ""⟩

/-- Second publication of the sorting example of the specification. -/
def jonesPub : Publication := ⟨"j", "", "", "Jones", 2020, "", "", "", ""⟩

/-- Third publication of the sorting example of the specification. -/
def adamsPub : Publication := ⟨"a", "", "", "Adams", 2021, "", "", "", ""⟩

/-- A newline-free publication for the round-trip witness. -/
def roundPub : Publication := ⟨"x", "T", "A B", "B", 2021, "cite text", "u", "d", ""⟩

/-- A publication whose title contains a newline, which breaks the round
trip. -/
def nlPub : Publication := ⟨"x", "a\nb", "A B", "B", 2020, "cite", "u", "d", ""⟩

/-! ## Lemmas about the URL scanner -/

/-- The canonical http scheme prefix. -/
def httpL : List Char := "http:".data

/-- The canonical https scheme prefix. -/
def httpsL : List Char := "https:".data

theorem listPre_append_self (xs ys : List Char) : listPre xs (xs ++ ys) = true := by
  induction xs with
  | nil => rfl
  | cons a as ih => simp [listPre, ih]

theorem splitAtQuote_eq : ∀ l a b, splitAtQuote l = some (a, b) → l = a ++ '"' :: b := by
  intro l
  induction l with
  | nil => intro a b h; simp [splitAtQuote] at h
  | cons c cs ih =>
    intro a b h
    simp only [splitAtQuote] at h
    split at h
    · next hc =>
      obtain ⟨rfl, rfl⟩ := Prod.mk.injEq .. ▸ Option.some.injEq .. ▸ h
      simp at hc
      simp [hc]
    · split at h
      · exact absurd h (by simp)
      · next hc hn =>
        cases hsq : splitAtQuote cs with
        | none => rw [hsq] at h; simp at h
        | some p =>
          obtain ⟨a0, b0⟩ := p
          rw [hsq] at h
          simp only [Option.some.injEq, Prod.mk.injEq] at h
          obtain ⟨rfl, rfl⟩ := h
          simp [ih _ _ hsq]

theorem splitAtQuote_none : ∀ l, '"' ∉ l → splitAtQuote l = none := by
  intro l
  induction l with
  | nil => intro _; rfl
  | cons c cs ih =>
    intro h
    have hc : ¬ (c = '"') := fun he => h (he ▸ List.mem_cons_self c cs)
    have hcs : '"' ∉ cs := fun hm => h (List.mem_cons_of_mem c hm)
    simp only [splitAtQuote, ih hcs]
    split
    · next hb => exact absurd (by simpa using hb) hc
    · split <;> rfl

theorem httpPre_eq : ∀ l pre r, httpPre l = some (pre, r) →
    l = pre ++ r ∧ (pre = httpL ∨ pre = httpsL) := by
  intro l pre r h
  unfold httpPre at h
  split at h <;>
    first
      | (simp only [Option.some.injEq, Prod.mk.injEq] at h
         obtain ⟨rfl, rfl⟩ := h
         constructor
         · rfl
         · simp [httpL, httpsL])
      | exact absurd h (by simp)

theorem urlMatch_eq (l u rest : List Char) (h : urlMatch l = some (u, rest)) :
    l = u ++ '"' :: rest ∧ (listPre httpL u = true ∨ listPre httpsL u = true) := by
  unfold urlMatch at h
  cases hp : httpPre l with
  | none => rw [hp] at h; simp at h
  | some pr =>
    obtain ⟨pre, r⟩ := pr
    rw [hp] at h
    dsimp only at h
    cases hs : splitAtQuote r with
    | none => rw [hs] at h; simp at h
    | some ab =>
      obtain ⟨mid, rest0⟩ := ab
      rw [hs] at h
      simp only [Option.some.injEq, Prod.mk.injEq] at h
      obtain ⟨rfl, rfl⟩ := h
      obtain ⟨hl, hpre⟩ := httpPre_eq l pre r hp
      have hr := splitAtQuote_eq r mid rest0 hs
      constructor
      · rw [hl, hr, List.append_assoc]
      · rcases hpre with hp1 | hp1
        · exact Or.inl (hp1 ▸ listPre_append_self pre mid)
        · exact Or.inr (hp1 ▸ listPre_append_self pre mid)

theorem urlMatch_none (l : List Char) (h : '"' ∉ l) : urlMatch l = none := by
  unfold urlMatch
  cases hp : httpPre l with
  | none => rfl
  | some pr =>
    obtain ⟨pre, r⟩ := pr
    obtain ⟨hl, _⟩ := httpPre_eq l pre r hp
    have hr : '"' ∉ r := fun hm => h (hl ▸ List.mem_append_right pre hm)
    dsimp only
    rw [splitAtQuote_none r hr]

theorem findUrlsAux_no_quote : ∀ fuel l, '"' ∉ l → findUrlsAux fuel l = [] := by
  intro fuel
  induction fuel with
  | zero => intro l _; rfl
  | succ f ih =>
    intro l h
    cases l with
    | nil => rfl
    | cons c cs =>
      have hcs : '"' ∉ cs := fun hm => h (List.mem_cons_of_mem c hm)
      simp only [findUrlsAux, urlMatch_none (c :: cs) h]
      exact ih cs hcs

theorem findUrls_no_quote (s : String) (h : '"' ∉ s.data) : findUrls s = [] := by
  unfold findUrls
  rw [findUrlsAux_no_quote s.data.length s.data h]
  rfl

theorem findUrlsAux_spec : ∀ fuel l, l.length ≤ fuel → ∀ u ∈ findUrlsAux fuel l,
    (listPre httpL u = true ∨ listPre httpsL u = true) ∧ ∃ a b, l = a ++ u ++ '"' :: b := by
  intro fuel
  induction fuel with
  | zero => intro l hl u hu; simp [findUrlsAux] at hu
  | succ f ih =>
    intro l hl u hu
    cases l with
    | nil => simp [findUrlsAux] at hu
    | cons c cs =>
      simp only [findUrlsAux] at hu
      cases hm : urlMatch (c :: cs) with
      | some pr =>
        obtain ⟨u0, rest⟩ := pr
        rw [hm] at hu
        obtain ⟨hdec, hpre⟩ := urlMatch_eq (c :: cs) u0 rest hm
        have hlen : rest.length ≤ f := by
          have := congrArg List.length hdec
          simp [List.length_append] at this
          simp at hl
          omega
        rcases List.mem_cons.mp hu with rfl | hu2
        · exact ⟨hpre, [], rest, by simpa using hdec⟩
        · obtain ⟨hp2, a, b, hab⟩ := ih rest hlen u hu2
          refine ⟨hp2, u0 ++ '"' :: a, b, ?_⟩
          rw [hdec, hab]
          simp
      | none =>
        rw [hm] at hu
        have hlen : cs.length ≤ f := by simp at hl; omega
        obtain ⟨hp2, a, b, hab⟩ := ih cs hlen u hu
        exact ⟨hp2, c :: a, b, by rw [hab]; rfl⟩

theorem findUrls_spec (s : String) (u : String) (hu : u ∈ findUrls s) :
    (listPre httpL u.data = true ∨ listPre httpsL u.data = true) ∧
      ∃ a b, s.data = a ++ u.data ++ '"' :: b := by
  unfold findUrls at hu
  obtain ⟨l, hl, rfl⟩ := List.mem_map.mp hu
  exact findUrlsAux_spec s.data.length s.data (le_refl _) l hl

/-! ## Lemmas about add_link and the DOI fallback -/

theorem add_link_ok (harvard doi : String) (st : String × String) :
    ∃ p, add_link harvard doi st = Except.ok p := by
  unfold add_link
  by_cases h0 : (findUrls harvard).length = 0
  · rw [if_pos h0]
    by_cases hd : doi ≠ ""
    · rw [if_pos hd]; exact ⟨_, rfl⟩
    · rw [if_neg hd]; exact ⟨_, rfl⟩
  · rw [if_neg h0]
    cases hep : (findUrls harvard).filter (fun s => strIn eprintsHost.data s.data) with
    | nil =>
      dsimp only
      rw [if_neg (by simp), if_pos (show ([] : List String).length = 0 from rfl)]
      by_cases hd : doi ≠ ""
      · rw [if_pos hd]; exact ⟨_, rfl⟩
      · rw [if_neg hd]
        have h1 : 1 ≤ (findUrls harvard).length := by omega
        rw [if_pos h1]
        cases hu : findUrls harvard with
        | nil => rw [hu] at h0; simp at h0
        | cons u us => exact ⟨_, rfl⟩
    | cons e es =>
      dsimp only
      by_cases h1 : 1 < (e :: es).length
      · rw [if_pos h1]; exact ⟨_, rfl⟩
      · rw [if_neg h1]
        rw [if_neg (by simp)]
        exact ⟨_, rfl⟩

theorem add_link_eprints (harvard doi : String) (u : String) (rest : List String)
    (h : (findUrls harvard).filter (fun s => strIn eprintsHost.data s.data) = u :: rest) :
    add_link harvard doi ("", "") = Except.ok (u, NO_DOI_LINK_DISPLAY) := by
  unfold add_link
  have hne : (findUrls harvard).length ≠ 0 := by
    intro he
    rw [List.length_eq_zero] at he
    rw [he] at h
    simp at h
  rw [if_neg hne, h]
  cases rest with
  | nil =>
    rw [if_neg (by simp)]
    rw [if_neg (by simp)]
    rfl
  | cons r rs =>
    rw [if_pos (by simp)]
    rfl

theorem add_link_no_urls (harvard doi : String) (st : String × String)
    (h : findUrls harvard = []) :
    add_link harvard doi st =
      (if doi = "" then Except.ok st else Except.ok (add_link_from_doi doi st)) := by
  unfold add_link
  rw [if_pos (by rw [h]; rfl)]
  by_cases hd : doi = ""
  · rw [if_neg (by simpa using hd), if_pos hd]
  · rw [if_pos hd, if_neg hd]

theorem findDoiAux_nil (fuel : Nat) : findDoiAux fuel [] = [] := by
  cases fuel <;> rfl

theorem findDoi_wellformed (X : String) (hX : '\n' ∉ X.data) :
    findDoi ("https://doi.org/" ++ X) = [X] := by
  obtain ⟨xl⟩ := X
  have hdata : ("https://doi.org/" ++ String.mk xl).data =
      'h' :: 't' :: 't' :: 'p' :: 's' :: ':' :: '/' :: '/' :: 'd' :: 'o' :: 'i' :: '.' :: 'o' :: 'r' :: 'g' :: '/' :: xl := by
    rw [String.data_append]
    rfl
  have hall : ∀ c ∈ xl, (c != '\n') = true := by
    intro c hc
    simp only [bne_iff_ne, ne_eq]
    intro he
    exact hX (by simpa [he] using hc)
  unfold findDoi
  rw [hdata]
  simp only [List.length_cons]
  have hstep : ∀ f : Nat,
      findDoiAux (f + 1) ('h' :: 't' :: 't' :: 'p' :: 's' :: ':' :: '/' :: '/' :: 'd' :: 'o' :: 'i' :: '.' :: 'o' :: 'r' :: 'g' :: '/' :: xl)
        = xl.takeWhile (fun ch => ch != '\n') :: findDoiAux f (xl.dropWhile (fun ch => ch != '\n')) :=
    fun _ => rfl
  rw [hstep]
  rw [List.takeWhile_eq_self_iff.mpr hall, List.dropWhile_eq_nil_iff.mpr hall]
  rw [findDoiAux_nil]
  rfl

theorem doi_prefix_ne_empty (X : String) : ("https://doi.org/" ++ X) ≠ "" := by
  intro h
  have := congrArg String.data h
  rw [String.data_append] at this
  simp at this

/-! ## Lemmas about mapE and the record builder -/

theorem mapE_ok_of_forall {ε α β : Type} (f : α → Except ε β) (p : β → Prop) :
    ∀ l : List α, (∀ x ∈ l, ∃ y, f x = Except.ok y ∧ p y) →
      ∃ res, mapE f l = Except.ok res ∧ (∀ y ∈ res, p y) ∧ res.length = l.length := by
  intro l
  induction l with
  | nil => intro _; exact ⟨[], rfl, by simp, rfl⟩
  | cons x xs ih =>
    intro h
    obtain ⟨y, hy, hpy⟩ := h x (List.mem_cons_self x xs)
    obtain ⟨res, hres, hall, hlen⟩ := ih (fun z hz => h z (List.mem_cons_of_mem x hz))
    refine ⟨y :: res, ?_, ?_, by simp [hlen]⟩
    · simp only [mapE, hy, hres]
    · intro z hz
      rcases List.mem_cons.mp hz with rfl | hz2
      · exact hpy
      · exact hall z hz2

theorem mapE_mem {ε α β : Type} (f : α → Except ε β) :
    ∀ (l : List α) (res : List β), mapE f l = Except.ok res →
      ∀ x ∈ l, ∀ y, f x = Except.ok y → y ∈ res := by
  intro l
  induction l with
  | nil => intro res _ x hx; simp at hx
  | cons a as ih =>
    intro res hres x hx y hy
    cases ha : f a with
    | error e =>
      simp only [mapE, ha] at hres
      exact Except.noConfusion hres
    | ok b =>
      cases has : mapE f as with
      | error e =>
        simp only [mapE, ha, has] at hres
        exact Except.noConfusion hres
      | ok bs =>
        simp only [mapE, ha, has, Except.ok.injEq] at hres
        subst hres
        rcases List.mem_cons.mp hx with rfl | hx2
        · rw [ha] at hy
          simp only [Except.ok.injEq] at hy
          exact hy ▸ List.mem_cons_self b bs
        · exact List.mem_cons_of_mem b (ih bs has x hx2 y hy)

theorem mapE_err {ε α β : Type} (f : α → Except ε β) :
    ∀ l : List α, (∃ x ∈ l, isOkB (f x) = false) → isOkB (mapE f l) = false := by
  intro l
  induction l with
  | nil => intro h; simp at h
  | cons a as ih =>
    intro h
    simp only [mapE]
    cases ha : f a with
    | error e => rfl
    | ok b =>
      cases has : mapE f as with
      | error e => rfl
      | ok bs =>
        obtain ⟨x, hx, hbad⟩ := h
        rcases List.mem_cons.mp hx with rfl | hx2
        · rw [ha] at hbad; simp [isOkB] at hbad
        · have := ih ⟨x, hx2, hbad⟩
          rw [has] at this
          simp [isOkB] at this

theorem format_authors_ok (ps : List Person) (h : ∀ p ∈ ps, p.role = "Author") :
    ∃ s, format_authors ps = Except.ok s := by
  unfold format_authors
  rw [if_pos]
  · exact ⟨_, rfl⟩
  · rw [List.all_eq_true]
    intro o ho
    obtain ⟨x, hx, rfl⟩ := List.mem_map.mp ho
    rw [if_pos (h x hx)]
    rfl

theorem format_authors_err (ps : List Person) (h : ∃ p ∈ ps, p.role ≠ "Author") :
    format_authors ps = Except.error PyErr.typeError := by
  unfold format_authors
  rw [if_neg]
  intro hall
  rw [List.all_eq_true] at hall
  obtain ⟨p, hp, hrole⟩ := h
  have := hall _ (List.mem_map_of_mem (fun x =>
    if x.role = "Author" then some (x.firstname ++ " " ++ x.lastname) else none) hp)
  rw [if_neg hrole] at this
  simp at this

theorem asPerson_ok_of_personOk (j : JVal) (h : personOk j = true) :
    ∃ f l, asPerson j = Except.ok ⟨f, l, "Author"⟩ := by
  cases j with
  | obj fs =>
    simp only [personOk] at h
    obtain ⟨⟨hf, hl⟩, hr⟩ := by
      have := h
      rw [Bool.and_eq_true, Bool.and_eq_true] at this
      exact this
    cases hfl : jLookup fs "firstname" with
    | none => rw [hfl] at hf; simp at hf
    | some v =>
      cases v with
      | str fv =>
        cases hll : jLookup fs "lastname" with
        | none => rw [hll] at hl; simp at hl
        | some w =>
          cases w with
          | str lv =>
            cases hrl : jLookup fs "role" with
            | none => rw [hrl] at hr; simp at hr
            | some u =>
              cases u with
              | str rv =>
                rw [hrl] at hr
                have hrv : rv = "Author" := by simpa using hr
                refine ⟨fv, lv, ?_⟩
                simp only [asPerson, hfl, hll, hrl, JVal.asStr, hrv]
                rfl
              | null => rw [hrl] at hr; simp at hr
              | int n => rw [hrl] at hr; simp at hr
              | arr xs => rw [hrl] at hr; simp at hr
              | obj gs => rw [hrl] at hr; simp at hr
          | null => rw [hll] at hl; simp at hl
          | int n => rw [hll] at hl; simp at hl
          | arr xs => rw [hll] at hl; simp at hl
          | obj gs => rw [hll] at hl; simp at hl
      | null => rw [hfl] at hf; simp at hf
      | int n => rw [hfl] at hf; simp at hf
      | arr xs => rw [hfl] at hf; simp at hf
      | obj gs => rw [hfl] at hf; simp at hf
  | null => simp [personOk] at h
  | int n => simp [personOk] at h
  | str s => simp [personOk] at h
  | arr xs => simp [personOk] at h

theorem asStr_str (s : String) : JVal.asStr (JVal.str s) = Except.ok s := rfl

theorem asStr_or (v : JVal) : (∃ s, v = JVal.str s) ∨ ∃ e, JVal.asStr v = Except.error e := by
  cases v
  case str s => exact Or.inl ⟨s, rfl⟩
  all_goals exact Or.inr ⟨PyErr.typeError, rfl⟩

theorem asPerson_bad (j : JVal) (h : personOk j = false) :
    isOkB (asPerson j) = false ∨ ∃ p, asPerson j = Except.ok p ∧ p.role ≠ "Author" := by
  cases j
  case obj fs =>
    cases hf : jLookup fs "firstname" with
    | none => exact Or.inl (by simp [asPerson, hf, exBind, isOkB])
    | some v =>
      rcases asStr_or v with ⟨fv, rfl⟩ | ⟨e, he⟩
      · cases hl : jLookup fs "lastname" with
        | none => exact Or.inl (by simp [asPerson, hf, hl, exBind, isOkB, JVal.asStr])
        | some w =>
          rcases asStr_or w with ⟨lv, rfl⟩ | ⟨e2, he2⟩
          · cases hr : jLookup fs "role" with
            | none => exact Or.inl (by simp [asPerson, hf, hl, hr, exBind, isOkB, JVal.asStr])
            | some u =>
              rcases asStr_or u with ⟨rv, rfl⟩ | ⟨e3, he3⟩
              · refine Or.inr ⟨⟨fv, lv, rv⟩,
                  by simp [asPerson, hf, hl, hr, exBind, JVal.asStr], ?_⟩
                intro hrv
                simp [personOk, hf, hl, hr] at h
                exact h (by simpa using hrv)
              · exact Or.inl (by simp [asPerson, hf, hl, hr, exBind, isOkB, asStr_str, he3])
          · exact Or.inl (by simp [asPerson, hf, hl, exBind, isOkB, asStr_str, he2])
      · exact Or.inl (by simp [asPerson, hf, exBind, isOkB, he])
  all_goals exact Or.inl (by simp [asPerson, isOkB])

theorem isOkB_eq_false {ε α : Type} (m : Except ε α) :
    isOkB m = false ↔ ∃ e, m = Except.error e := by
  cases m <;> simp [isOkB]

theorem init_ok_iff (pid : String) (j : JVal) :
    isOkB (Publication.init pid j) = detailsComplete j := by
  cases j
  case null => rfl
  case int n => rfl
  case str s => rfl
  case arr xs => rfl
  case obj fs =>
  cases ht : jLookup fs "title"
  case none => simp [Publication.init, JVal.getKey, detailsComplete, ht, exBind, isOkB]
  case some tv =>
  cases tv
  case null => simp [Publication.init, JVal.getKey, detailsComplete, ht, exBind, isOkB, JVal.asStr]
  case int n => simp [Publication.init, JVal.getKey, detailsComplete, ht, exBind, isOkB, JVal.asStr]
  case arr xs => simp [Publication.init, JVal.getKey, detailsComplete, ht, exBind, isOkB, JVal.asStr]
  case obj gs => simp [Publication.init, JVal.getKey, detailsComplete, ht, exBind, isOkB, JVal.asStr]
  case str ts =>
  cases hp : jLookup fs "persons"
  case none =>
    simp [Publication.init, JVal.getKey, detailsComplete, ht, hp, exBind, isOkB, asStr_str]
  case some pv =>
  cases pv
  case null =>
    simp [Publication.init, JVal.getKey, detailsComplete, ht, hp, exBind, isOkB, asStr_str, asPersons]
  case int n =>
    simp [Publication.init, JVal.getKey, detailsComplete, ht, hp, exBind, isOkB, asStr_str, asPersons]
  case str s =>
    simp [Publication.init, JVal.getKey, detailsComplete, ht, hp, exBind, isOkB, asStr_str, asPersons]
  case obj gs =>
    simp [Publication.init, JVal.getKey, detailsComplete, ht, hp, exBind, isOkB, asStr_str, asPersons]
  case arr ps =>
  by_cases hall : ps.all personOk = true
  · have hstep : ∀ x ∈ ps, ∃ y, asPerson x = Except.ok y ∧ y.role = "Author" := by
      intro x hx
      obtain ⟨f, l, hfl⟩ := asPerson_ok_of_personOk x (List.all_eq_true.mp hall x hx)
      exact ⟨⟨f, l, "Author"⟩, hfl, rfl⟩
    obtain ⟨res, hres, hroles, hlen⟩ :=
      mapE_ok_of_forall asPerson (fun per => per.role = "Author") ps hstep
    obtain ⟨auth, hauth⟩ := format_authors_ok res (fun p hp2 => hroles p hp2)
    cases ps with
    | nil =>
      have hres0 : res = [] := List.length_eq_zero.mp (by rw [hlen]; rfl)
      subst hres0
      simp [Publication.init, JVal.getKey, detailsComplete, ht, hp, exBind, isOkB, asStr_str,
        asPersons, hres, hauth]
    | cons q qs =>
      cases res with
      | nil => exact absurd hlen (by simp)
      | cons r rs =>
        cases hy : jLookup fs "year" with
        | none =>
          simp [Publication.init, JVal.getKey, detailsComplete, ht, hp, hy, exBind, isOkB,
            asStr_str, asPersons, hres, hauth, hall]
        | some yv =>
          cases yv with
          | null =>
            simp [Publication.init, JVal.getKey, detailsComplete, ht, hp, hy, exBind, isOkB,
              asStr_str, asPersons, hres, hauth, hall, JVal.asInt]
          | str s =>
            simp [Publication.init, JVal.getKey, detailsComplete, ht, hp, hy, exBind, isOkB,
              asStr_str, asPersons, hres, hauth, hall, JVal.asInt]
          | arr xs =>
            simp [Publication.init, JVal.getKey, detailsComplete, ht, hp, hy, exBind, isOkB,
              asStr_str, asPersons, hres, hauth, hall, JVal.asInt]
          | obj gs =>
            simp [Publication.init, JVal.getKey, detailsComplete, ht, hp, hy, exBind, isOkB,
              asStr_str, asPersons, hres, hauth, hall, JVal.asInt]
          | int yr =>
            cases hh : jLookup fs "harvard" with
            | none =>
              simp [Publication.init, JVal.getKey, detailsComplete, ht, hp, hy, hh, exBind,
                isOkB, asStr_str, asPersons, hres, hauth, hall, JVal.asInt]
            | some hv =>
              cases hv with
              | null =>
                simp [Publication.init, JVal.getKey, detailsComplete, ht, hp, hy, hh, exBind,
                  isOkB, asStr_str, asPersons, hres, hauth, hall, JVal.asInt, JVal.asStr]
              | int n =>
                simp [Publication.init, JVal.getKey, detailsComplete, ht, hp, hy, hh, exBind,
                  isOkB, asStr_str, asPersons, hres, hauth, hall, JVal.asInt, JVal.asStr]
              | arr xs =>
                simp [Publication.init, JVal.getKey, detailsComplete, ht, hp, hy, hh, exBind,
                  isOkB, asStr_str, asPersons, hres, hauth, hall, JVal.asInt, JVal.asStr]
              | obj gs =>
                simp [Publication.init, JVal.getKey, detailsComplete, ht, hp, hy, hh, exBind,
                  isOkB, asStr_str, asPersons, hres, hauth, hall, JVal.asInt, JVal.asStr]
              | str hs =>
                cases hd : jLookup fs "doi" with
                | none =>
                  simp [Publication.init, JVal.getKey, detailsComplete, ht, hp, hy, hh, hd,
                    exBind, isOkB, asStr_str, asPersons, hres, hauth, hall, JVal.asInt]
                | some dv =>
                  cases dv with
                  | int n =>
                    simp [Publication.init, JVal.getKey, detailsComplete, ht, hp, hy, hh, hd,
                      exBind, isOkB, asStr_str, asPersons, hres, hauth, hall, JVal.asInt,
                      JVal.asStrOrNull]
                  | arr xs =>
                    simp [Publication.init, JVal.getKey, detailsComplete, ht, hp, hy, hh, hd,
                      exBind, isOkB, asStr_str, asPersons, hres, hauth, hall, JVal.asInt,
                      JVal.asStrOrNull]
                  | obj gs =>
                    simp [Publication.init, JVal.getKey, detailsComplete, ht, hp, hy, hh, hd,
                      exBind, isOkB, asStr_str, asPersons, hres, hauth, hall, JVal.asInt,
                      JVal.asStrOrNull]
                  | str ds =>
                    obtain ⟨lnk, hlnk⟩ := add_link_ok hs ds ("", "")
                    simp [Publication.init, JVal.getKey, detailsComplete, ht, hp, hy, hh, hd,
                      exBind, isOkB, asStr_str, asPersons, hres, hauth, hall, JVal.asInt,
                      JVal.asStrOrNull, hlnk]
                  | null =>
                    obtain ⟨lnk, hlnk⟩ := add_link_ok hs "" ("", "")
                    simp [Publication.init, JVal.getKey, detailsComplete, ht, hp, hy, hh, hd,
                      exBind, isOkB, asStr_str, asPersons, hres, hauth, hall, JVal.asInt,
                      JVal.asStrOrNull, hlnk]
  · have hallf : ps.all personOk = false := by simpa using hall
    have hRHS : detailsComplete (JVal.obj fs) = false := by
      simp [detailsComplete, ht, hp, hallf]
    obtain ⟨x, hx, hbadt⟩ := List.all_eq_false.mp hallf
    have hbad : personOk x = false := by simpa using hbadt
    have hLHS : isOkB (Publication.init pid (JVal.obj fs)) = false := by
      rcases asPerson_bad x hbad with herr | ⟨per, hper, hrole⟩
      · obtain ⟨e, he⟩ := (isOkB_eq_false _).mp (mapE_err asPerson ps ⟨x, hx, herr⟩)
        simp [Publication.init, JVal.getKey, ht, hp, exBind, isOkB, asStr_str, asPersons, he]
      · cases hm : mapE asPerson ps with
        | error e =>
          simp [Publication.init, JVal.getKey, ht, hp, exBind, isOkB, asStr_str, asPersons, hm]
        | ok res =>
          have hmem := mapE_mem asPerson ps res hm x hx per hper
          have hfmt := format_authors_err res ⟨per, hmem, hrole⟩
          simp [Publication.init, JVal.getKey, ht, hp, exBind, isOkB, asStr_str, asPersons,
            hm, hfmt]
    rw [hLHS, hRHS]

/-! ## Lemmas about the sort -/

theorem pubR_total : ∀ x y : Publication, pubR x y ∨ pubR y x := by
  intro x y
  unfold pubR
  rcases lt_trichotomy x.year y.year with h | h | h
  · exact Or.inr (Or.inl h)
  · rcases lt_trichotomy x.first_author.data y.first_author.data with h2 | h2 | h2
    · exact Or.inl (Or.inr ⟨h, Or.inl h2⟩)
    · exact Or.inl (Or.inr ⟨h, Or.inr h2⟩)
    · exact Or.inr (Or.inr ⟨h.symm, Or.inl h2⟩)
  · exact Or.inl (Or.inl h)

theorem pubR_trans : ∀ x y z : Publication, pubR x y → pubR y z → pubR x z := by
  intro x y z hxy hyz
  unfold pubR at hxy hyz ⊢
  rcases hxy with h1 | ⟨hy1, h1⟩
  · rcases hyz with h2 | ⟨hy2, h2⟩
    · exact Or.inl (lt_trans h2 h1)
    · exact Or.inl (by omega)
  · rcases hyz with h2 | ⟨hy2, h2⟩
    · exact Or.inl (by omega)
    · refine Or.inr ⟨by omega, ?_⟩
      rcases h1 with h1 | h1 <;> rcases h2 with h2 | h2
      · exact Or.inl (lt_trans h1 h2)
      · exact Or.inl (h2 ▸ h1)
      · exact Or.inl (h1 ▸ h2)
      · exact Or.inr (h1.trans h2)

theorem filter_orderedInsert_key (a : Publication) (l : List Publication)
    (keyP : Publication → Bool)
    (hkey : ∀ b, keyP b = true → keyP a = true → pubR a b) :
    (List.orderedInsert pubR a l).filter keyP =
      if keyP a then a :: l.filter keyP else l.filter keyP := by
  have hsplit : l.filter keyP =
      (List.takeWhile (fun b => decide ¬pubR a b) l).filter keyP ++
      (List.dropWhile (fun b => decide ¬pubR a b) l).filter keyP := by
    rw [← List.filter_append, List.takeWhile_append_dropWhile]
  rw [List.orderedInsert_eq_take_drop, List.filter_append]
  by_cases ha : keyP a = true
  · have htw : (List.takeWhile (fun b => decide ¬pubR a b) l).filter keyP = [] := by
      rw [List.filter_eq_nil_iff]
      intro b hb hkb
      have hnr : ¬ pubR a b := by simpa using List.mem_takeWhile_imp hb
      exact hnr (hkey b hkb ha)
    rw [if_pos ha, hsplit, htw]
    simp [List.filter_cons, ha]
  · have hfa : keyP a = false := by simpa using ha
    rw [if_neg ha, hsplit]
    simp [List.filter_cons, hfa]

theorem sortPublications_stable (ps : List Publication) (y : Int) (fa : String) :
    (sortPublications ps).filter (fun p => decide (p.year = y ∧ p.first_author = fa)) =
      ps.filter (fun p => decide (p.year = y ∧ p.first_author = fa)) := by
  unfold sortPublications
  induction ps with
  | nil => rfl
  | cons a l ih =>
    simp only [List.insertionSort]
    rw [filter_orderedInsert_key]
    · by_cases ha : (decide (a.year = y ∧ a.first_author = fa)) = true
      · rw [if_pos ha, ih, List.filter_cons, if_pos ha]
      · rw [if_neg ha, ih, List.filter_cons, if_neg ha]
    · intro b hkb hka
      have hb : b.year = y ∧ b.first_author = fa := of_decide_eq_true hkb
      have ha2 : a.year = y ∧ a.first_author = fa := of_decide_eq_true hka
      unfold pubR
      refine Or.inr ⟨by rw [ha2.1, hb.1], Or.inr ?_⟩
      rw [ha2.2, hb.2]

theorem sortPublications_sorted (ps : List Publication) :
    List.Sorted pubR (sortPublications ps) := by
  haveI : IsTotal Publication pubR := ⟨pubR_total⟩
  haveI : IsTrans Publication pubR := ⟨pubR_trans⟩
  exact List.sorted_insertionSort pubR ps

theorem sortPublications_perm (ps : List Publication) :
    List.Perm (sortPublications ps) ps :=
  List.perm_insertionSort pubR ps

/-! ## Lemmas about the orchestration -/

theorem isOkB_eq_true {ε α : Type} (m : Except ε α) :
    isOkB m = true ↔ ∃ a, m = Except.ok a := by
  cases m <;> simp [isOkB]

theorem main_abort (env : Env) (ids : List JVal)
    (hids : get_publication_ids env = Except.ok (some ids))
    (hok : ∀ x ∈ ids, isOkB (enrich_publication env x) = true)
    (hfail : ∃ x ∈ ids, enrich_publication env x = Except.ok none) :
    Pipeline.main env = Except.ok (1, none) := by
  unfold Pipeline.main
  rw [hids]
  dsimp only [exBind]
  have hstep : ∀ x ∈ ids, ∃ y, enrich_publication env x = Except.ok y ∧ True := by
    intro x hx
    obtain ⟨y, hy⟩ := (isOkB_eq_true _).mp (hok x hx)
    exact ⟨y, hy, trivial⟩
  obtain ⟨res, hres, -, -⟩ :=
    mapE_ok_of_forall (enrich_publication env) (fun _ => True) ids hstep
  rw [hres]
  dsimp only [exBind]
  obtain ⟨x, hx, hnone⟩ := hfail
  have hmem : (none : Option Publication) ∈ res :=
    mapE_mem (enrich_publication env) ids res hres x hx none hnone
  have hany : res.any (fun o => o.isNone) = true :=
    List.any_eq_true.mpr ⟨none, hmem, rfl⟩
  rw [if_pos hany]

theorem goodProjectBody_elim (j : JVal) (h : goodProjectBody j = true) :
    ∃ fs items, j = JVal.obj fs ∧ jLookup fs "outputs" = some (JVal.arr items) ∧
      ∀ it ∈ items, ∃ gs s, it = JVal.obj gs ∧ jLookup gs "pureId" = some (JVal.str s) := by
  cases j
  case null => simp [goodProjectBody] at h
  case int n => simp [goodProjectBody] at h
  case str s => simp [goodProjectBody] at h
  case arr xs => simp [goodProjectBody] at h
  case obj fs =>
  cases ho : jLookup fs "outputs" with
  | none => simp [goodProjectBody, ho] at h
  | some ov =>
    cases ov with
    | arr items =>
      refine ⟨fs, items, rfl, ho, ?_⟩
      intro it hit
      have hall : ∀ x ∈ items, (fun it2 =>
          match it2 with
          | JVal.obj gs =>
            (match jLookup gs "pureId" with
              | some (JVal.str _) => true
              | _ => false)
          | _ => false) x = true := by
        rw [← List.all_eq_true]
        simpa [goodProjectBody, ho] using h
      have hone := hall it hit
      cases it
      case null => simp at hone
      case int n => simp at hone
      case str s => simp at hone
      case arr xs => simp at hone
      case obj gs =>
      cases hid : jLookup gs "pureId" with
      | none => simp [hid] at hone
      | some iv =>
        cases iv with
        | str s => exact ⟨gs, s, rfl, hid⟩
        | null => simp [hid] at hone
        | int n => simp [hid] at hone
        | arr xs => simp [hid] at hone
        | obj gs2 => simp [hid] at hone
    | null => simp [goodProjectBody, ho] at h
    | int n => simp [goodProjectBody, ho] at h
    | str s => simp [goodProjectBody, ho] at h
    | obj gs => simp [goodProjectBody, ho] at h

theorem goodDetailBody_elim (j : JVal) (h : goodDetailBody j = true) :
    ∃ fs c, j = JVal.obj fs ∧ jLookup fs "count" = some c ∧
      (c.isIntOne = false ∨
        ∃ ds rest, jLookup fs "publications" = some (JVal.arr (ds :: rest)) ∧
          detailsComplete ds = true) := by
  cases j
  case null => simp [goodDetailBody] at h
  case int n => simp [goodDetailBody] at h
  case str s => simp [goodDetailBody] at h
  case arr xs => simp [goodDetailBody] at h
  case obj fs =>
  cases hc : jLookup fs "count" with
  | none => simp [goodDetailBody, hc] at h
  | some c =>
    refine ⟨fs, c, rfl, hc, ?_⟩
    by_cases h1 : c.isIntOne = true
    · right
      have h2 : (match jLookup fs "publications" with
          | some (JVal.arr (d :: _)) => detailsComplete d
          | _ => false) = true := by
        simpa [goodDetailBody, hc, h1] using h
      cases hp : jLookup fs "publications" with
      | none => rw [hp] at h2; simp at h2
      | some pv =>
        cases pv with
        | arr xs =>
          cases xs with
          | nil => rw [hp] at h2; simp at h2
          | cons d rest => exact ⟨d, rest, rfl, by rw [hp] at h2; simpa using h2⟩
        | null => rw [hp] at h2; simp at h2
        | int n => rw [hp] at h2; simp at h2
        | str s => rw [hp] at h2; simp at h2
        | obj gs => rw [hp] at h2; simp at h2
    · exact Or.inl (by simpa using h1)

theorem enrich_benign (env : Env)
    (hdet : ∀ pid : String, goodAnswer goodDetailBody (env (detail_url pid)))
    (x : JVal) (hx : ∃ s, x = JVal.str s) :
    ∃ o, enrich_publication env x = Except.ok o := by
  obtain ⟨pid, rfl⟩ := hx
  unfold enrich_publication rest_get
  dsimp only
  have hu : BASE_URL ++ "/" ++ "." ++ "/" ++ ("outputs?limit=1&offset=0&guids=" ++ pid) =
      detail_url pid := rfl
  rw [hu]
  have hd := hdet pid
  cases henv : env (detail_url pid) with
  | unreachable => exact ⟨none, rfl⟩
  | reply status body =>
    rw [henv] at hd
    dsimp only
    by_cases hs : status = 200
    · rw [if_pos hs]
      rcases hd with h200 | ⟨j, rfl, hshape⟩
      · exact absurd hs h200
      · obtain ⟨fs, c, rfl, hcnt, hrest⟩ := goodDetailBody_elim j hshape
        simp only [exBind, JVal.getKey, hcnt]
        rcases hrest with hc0 | ⟨ds, rest, hpubs, hcomp⟩
        · rw [if_neg (by simp [hc0])]
          exact ⟨none, rfl⟩
        · by_cases h1 : c.isIntOne = true
          · rw [if_pos h1]
            simp only [exBind, JVal.getKey, hpubs, pyIndexZero]
            obtain ⟨p, hp⟩ := (isOkB_eq_true (Publication.init pid ds)).mp
              (by rw [init_ok_iff]; exact hcomp)
            rw [hp]
            exact ⟨some p, rfl⟩
          · rw [if_neg h1]
            exact ⟨none, rfl⟩
    · rw [if_neg hs]
      exact ⟨none, rfl⟩

theorem main_benign (env : Env) (h : BenignEnv env) :
    ∃ st out, Pipeline.main env = Except.ok (st, out) ∧ (st = 0 ∨ st = 1) := by
  obtain ⟨hproj, hdet⟩ := h
  unfold Pipeline.main get_publication_ids rest_get
  have hu : BASE_URL ++ "/" ++ "project" ++ "/" ++ PROJECT_ID = projectUrl := rfl
  rw [hu]
  cases henv : env projectUrl with
  | unreachable =>
    exact ⟨1, none, rfl, Or.inr rfl⟩
  | reply status body =>
    rw [henv] at hproj
    dsimp only
    by_cases hs : status = 200
    · rw [if_pos hs]
      rcases hproj with h200 | ⟨j, rfl, hshape⟩
      · exact absurd hs h200
      · obtain ⟨fs, items, rfl, ho, hitems⟩ := goodProjectBody_elim j hshape
        have hout : JVal.getKey (JVal.obj fs) "outputs" = Except.ok (JVal.arr items) := by
          simp [JVal.getKey, ho]
        simp only [exBind, hout, pyIter]
        have hstep : ∀ it ∈ items, ∃ y, JVal.getKey it "pureId" = Except.ok y ∧
            ∃ s, y = JVal.str s := by
          intro it hit
          obtain ⟨gs, s, rfl, hid⟩ := hitems it hit
          exact ⟨JVal.str s, by simp [JVal.getKey, hid], ⟨s, rfl⟩⟩
        obtain ⟨ids, hids, hidstr, -⟩ :=
          mapE_ok_of_forall (fun it => JVal.getKey it "pureId")
            (fun y => ∃ s, y = JVal.str s) items hstep
        rw [hids]
        dsimp only [exBind]
        have hstep2 : ∀ x ∈ ids, ∃ o, enrich_publication env x = Except.ok o ∧ True :=
          fun x hx => by
            obtain ⟨o, ho2⟩ := enrich_benign env hdet x (hidstr x hx)
            exact ⟨o, ho2, trivial⟩
        obtain ⟨pubs, hpubs, -, -⟩ :=
          mapE_ok_of_forall (enrich_publication env) (fun _ => True) ids hstep2
        rw [hpubs]
        dsimp only [exBind]
        by_cases hany : pubs.any (fun o => o.isNone) = true
        · rw [if_pos hany]
          exact ⟨1, none, rfl, Or.inr rfl⟩
        · rw [if_neg hany]
          exact ⟨0, _, rfl, Or.inl rfl⟩
    · rw [if_neg hs]
      exact ⟨1, none, rfl, Or.inr rfl⟩

/-! ## Lemmas about rendering and re-parsing -/

theorem string_mk_data (s : String) : String.mk s.data = s := by
  cases s
  rfl

theorem digitCh_digit (n : Nat) (h : n < 10) : digToVal (digitCh n) = some n := by
  interval_cases n <;> rfl

theorem natDigitsAux_digit :
    ∀ fuel n c, c ∈ natDigitsAux fuel n → (digToVal c).isSome = true := by
  intro fuel
  induction fuel with
  | zero => intro n c hc; simp [natDigitsAux] at hc
  | succ f ih =>
    intro n c hc
    by_cases h10 : n < 10
    · simp only [natDigitsAux, if_pos h10] at hc
      simp only [List.mem_singleton] at hc
      rw [hc, digitCh_digit n h10]
      rfl
    · simp only [natDigitsAux, if_neg h10] at hc
      rcases List.mem_append.mp hc with hc2 | hc2
      · exact ih (n / 10) c hc2
      · simp only [List.mem_singleton] at hc2
        rw [hc2, digitCh_digit (n % 10) (Nat.mod_lt n (by norm_num))]
        rfl

theorem natDigits_digit (n : Nat) (c : Char) (hc : c ∈ natDigits n) :
    (digToVal c).isSome = true :=
  natDigitsAux_digit (n + 1) n c hc

theorem natDigits_no_newline (n : Nat) : '\n' ∉ natDigits n := by
  intro hc
  exact absurd (natDigits_digit n '\n' hc) (by decide)

theorem intStr_no_newline (i : Int) : '\n' ∉ (intStr i).data := by
  unfold intStr
  by_cases hi : i < 0
  · rw [if_pos hi]
    have hdata : ("-" ++ String.mk (natDigits i.natAbs)).data = '-' :: natDigits i.natAbs := by
      rw [String.data_append]
      rfl
    rw [hdata]
    intro hc
    rcases List.mem_cons.mp hc with he | he
    · exact absurd he (by decide)
    · exact natDigits_no_newline _ he
  · rw [if_neg hi]
    exact natDigits_no_newline _

theorem natDigits_ne_nil (n : Nat) : natDigits n ≠ [] := by
  unfold natDigits natDigitsAux
  by_cases h10 : n < 10
  · rw [if_pos h10]
    simp
  · rw [if_neg h10]
    simp

theorem parseNatAux_fold : ∀ (fuel n a : Nat), n < fuel →
    List.foldl (fun acc c =>
      match acc, digToVal c with
      | some a2, some d => some (a2 * 10 + d)
      | _, _ => none) (some a) (natDigitsAux fuel n)
    = some (a * 10 ^ (natDigitsAux fuel n).length + n) := by
  intro fuel
  induction fuel with
  | zero => intro n a h; exact absurd h (Nat.not_lt_zero n)
  | succ f ih =>
    intro n a h
    by_cases h10 : n < 10
    · simp only [natDigitsAux, if_pos h10]
      simp only [List.foldl_cons, List.foldl_nil, digitCh_digit n h10, List.length_singleton]
      simp
    · simp only [natDigitsAux, if_neg h10]
      rw [List.foldl_append]
      have hdiv : n / 10 < f := by
        have h1 : 0 < n := by omega
        have h2 := Nat.div_lt_self h1 (by norm_num : 1 < 10)
        omega
      rw [ih (n / 10) a hdiv]
      have hm : n % 10 < 10 := Nat.mod_lt n (by omega)
      simp only [List.foldl_cons, List.foldl_nil, digitCh_digit (n % 10) hm,
        List.length_append, List.length_singleton]
      have hpow : a * 10 ^ ((natDigitsAux f (n / 10)).length + 1) =
          a * 10 ^ (natDigitsAux f (n / 10)).length * 10 := by
        rw [pow_succ]
        ring
      rw [hpow]
      congr 1
      generalize a * 10 ^ (natDigitsAux f (n / 10)).length = X
      omega

theorem parseNatList_natDigits (n : Nat) : parseNatList (natDigits n) = some n := by
  unfold parseNatList natDigits
  rw [parseNatAux_fold (n + 1) n 0 (Nat.lt_succ_self n)]
  simp

theorem parseIntList_cons_nonneg (c : Char) (l : List Char) (h : c ≠ '-') :
    parseIntList (c :: l) = (parseNatList (c :: l)).map (fun n => (n : Int)) := by
  unfold parseIntList
  split
  · next heq =>
    exfalso
    injection heq with h1 h2
    exact h h1
  · rfl

theorem parseIntList_intStr (i : Int) : parseIntList (intStr i).data = some i := by
  unfold intStr
  by_cases hi : i < 0
  · rw [if_pos hi]
    have hdata : ("-" ++ String.mk (natDigits i.natAbs)).data = '-' :: natDigits i.natAbs := by
      rw [String.data_append]
      rfl
    rw [hdata]
    show (parseNatList (natDigits i.natAbs)).map (fun n => -(n : Int)) = some i
    rw [parseNatList_natDigits]
    have hneg : -((i.natAbs : Nat) : Int) = i := by omega
    show some (-((i.natAbs : Nat) : Int)) = some i
    rw [hneg]
  · rw [if_neg hi]
    cases hd : natDigits i.toNat with
    | nil => exact absurd hd (natDigits_ne_nil _)
    | cons c rest =>
      have hc : (digToVal c).isSome = true :=
        natDigits_digit _ c (by rw [hd]; exact List.mem_cons_self c rest)
      have hcne : c ≠ '-' := by
        intro he
        rw [he] at hc
        exact absurd hc (by decide)
      show parseIntList (c :: rest) = some i
      rw [parseIntList_cons_nonneg c rest hcne, ← hd, parseNatList_natDigits]
      have hpos : ((i.toNat : Nat) : Int) = i := by omega
      show some ((i.toNat : Nat) : Int) = some i
      rw [hpos]

theorem noNL_append {a b : List Char} (ha : '\n' ∉ a) (hb : '\n' ∉ b) : '\n' ∉ a ++ b := by
  intro h
  rcases List.mem_append.mp h with h2 | h2
  · exact ha h2
  · exact hb h2

theorem splitLines_newline_cons (ys : List Char) :
    splitLines ('\n' :: ys) = [] :: splitLines ys := by
  simp [splitLines]

theorem splitLines_append_newline : ∀ (xs ys : List Char), '\n' ∉ xs →
    splitLines (xs ++ '\n' :: ys) = xs :: splitLines ys := by
  intro xs
  induction xs with
  | nil => intro ys _; simp [splitLines]
  | cons c cs ih =>
    intro ys h
    have hc : ¬ (c = '\n') := fun he => h (he ▸ List.mem_cons_self c cs)
    have hcs : '\n' ∉ cs := fun hm => h (List.mem_cons_of_mem c hm)
    simp only [List.cons_append, splitLines]
    rw [if_neg (by simpa using hc)]
    simp only [List.append_eq]
    rw [ih ys hcs]

theorem stripPre_append : ∀ (pre l : List Char), stripPre pre (pre ++ l) = some l := by
  intro pre
  induction pre with
  | nil => intro l; rfl
  | cons a as ih => intro l; simp [stripPre, ih]

theorem stripT_desc (D : List Char) :
    stripPre titlePreL ("  description: ".data ++ D) = none := rfl

theorem stripY_desc (D : List Char) :
    stripPre yearPreL ("  description: ".data ++ D) = none := rfl

theorem stripU_desc (D : List Char) :
    stripPre urlPreL ("  description: ".data ++ D) = none := rfl

theorem stripD_desc (D : List Char) :
    stripPre dispPreL ("  description: ".data ++ D) = none := rfl

theorem stripT_auth (D : List Char) :
    stripPre titlePreL ("  authors: ".data ++ D) = none := rfl

theorem stripY_auth (D : List Char) :
    stripPre yearPreL ("  authors: ".data ++ D) = none := rfl

theorem stripU_auth (D : List Char) :
    stripPre urlPreL ("  authors: ".data ++ D) = none := rfl

theorem stripD_auth (D : List Char) :
    stripPre dispPreL ("  authors: ".data ++ D) = none := rfl

theorem stripT_year (D : List Char) : stripPre titlePreL (yearPreL ++ D) = none := rfl

theorem stripT_harv : stripPre titlePreL "  harvard: |".data = none := rfl

theorem stripY_harv : stripPre yearPreL "  harvard: |".data = none := rfl

theorem stripU_harv : stripPre urlPreL "  harvard: |".data = none := rfl

theorem stripD_harv : stripPre dispPreL "  harvard: |".data = none := rfl

theorem stripT_content (H : List Char) :
    stripPre titlePreL ("    ".data ++ H) = none := rfl

theorem stripY_content (H : List Char) :
    stripPre yearPreL ("    ".data ++ H) = none := rfl

theorem stripT_link : stripPre titlePreL "  link:".data = none := rfl

theorem stripY_link : stripPre yearPreL "  link:".data = none := rfl

theorem stripU_link : stripPre urlPreL "  link:".data = none := rfl

theorem stripD_link : stripPre dispPreL "  link:".data = none := rfl

theorem stripT_url (U : List Char) : stripPre titlePreL (urlPreL ++ U) = none := rfl

theorem stripY_url (U : List Char) : stripPre yearPreL (urlPreL ++ U) = none := rfl

theorem stripT_disp (L : List Char) : stripPre titlePreL (dispPreL ++ L) = none := rfl

theorem stripY_disp (L : List Char) : stripPre yearPreL (dispPreL ++ L) = none := rfl

theorem stripU_disp (L : List Char) : stripPre urlPreL (dispPreL ++ L) = none := rfl

theorem stripT_nil : stripPre titlePreL [] = none := rfl

theorem stripY_nil : stripPre yearPreL [] = none := rfl

theorem stripU_nil : stripPre urlPreL [] = none := rfl

theorem stripD_nil : stripPre dispPreL [] = none := rfl

theorem parseTitleVal_concat (t : String) :
    parseTitleVal (t.data ++ ['"']) = t := by
  unfold parseTitleVal
  rw [List.getLast?_concat]
  rw [List.dropLast_concat]
  exact string_mk_data t

theorem step_title_none (T : List Char) (rest : List (List Char)) :
    parseAux ((titlePreL ++ T) :: rest) none =
      parseAux rest (some ⟨parseTitleVal T, none, "", ""⟩) := rfl

theorem step_title_some (T : List Char) (rest : List (List Char)) (r : ParsedPub) :
    parseAux ((titlePreL ++ T) :: rest) (some r) =
      r :: parseAux rest (some ⟨parseTitleVal T, none, "", ""⟩) := rfl

theorem step_desc (D : List Char) (rest : List (List Char)) (q : ParsedPub) :
    parseAux (("  description: ".data ++ D) :: rest) (some q) = parseAux rest (some q) := rfl

theorem step_auth (D : List Char) (rest : List (List Char)) (q : ParsedPub) :
    parseAux (("  authors: ".data ++ D) :: rest) (some q) = parseAux rest (some q) := rfl

theorem step_year (Y : List Char) (rest : List (List Char)) (q : ParsedPub) :
    parseAux ((yearPreL ++ Y) :: rest) (some q) =
      parseAux rest (some ⟨q.ptitle, parseIntList Y, q.purl, q.pdisplay⟩) := rfl

theorem step_harv (rest : List (List Char)) (q : ParsedPub) :
    parseAux ("  harvard: |".data :: rest) (some q) = parseAux rest (some q) := rfl

theorem step_link (rest : List (List Char)) (q : ParsedPub) :
    parseAux ("  link:".data :: rest) (some q) = parseAux rest (some q) := rfl

theorem step_url (U : List Char) (rest : List (List Char)) (q : ParsedPub) :
    parseAux ((urlPreL ++ U) :: rest) (some q) =
      parseAux rest (some ⟨q.ptitle, q.pyear, String.mk U, q.pdisplay⟩) := rfl

theorem step_disp (L : List Char) (rest : List (List Char)) (q : ParsedPub) :
    parseAux ((dispPreL ++ L) :: rest) (some q) =
      parseAux rest (some ⟨q.ptitle, q.pyear, q.purl, String.mk L⟩) := rfl

theorem step_nil_line (rest : List (List Char)) (q : ParsedPub) :
    parseAux ([] :: rest) (some q) = parseAux rest (some q) := rfl

theorem step_content (H : List Char) (rest : List (List Char)) (q : ParsedPub) :
    ∃ u d, parseAux (("    ".data ++ H) :: rest) (some q) =
      parseAux rest (some ⟨q.ptitle, q.pyear, u, d⟩) := by
  have hstep : parseAux (("    ".data ++ H) :: rest) (some q) =
      (match stripPre urlPreL ("    ".data ++ H) with
        | some v => parseAux rest (some ⟨q.ptitle, q.pyear, String.mk v, q.pdisplay⟩)
        | none =>
          match stripPre dispPreL ("    ".data ++ H) with
          | some v => parseAux rest (some ⟨q.ptitle, q.pyear, q.purl, String.mk v⟩)
          | none => parseAux rest (some ⟨q.ptitle, q.pyear, q.purl, q.pdisplay⟩)) := rfl
  cases hu : stripPre urlPreL ("    ".data ++ H) with
  | some v => exact ⟨String.mk v, q.pdisplay, by rw [hstep, hu]⟩
  | none =>
    cases hd : stripPre dispPreL ("    ".data ++ H) with
    | some v => exact ⟨q.purl, String.mk v, by rw [hstep, hu, hd]⟩
    | none => exact ⟨q.purl, q.pdisplay, by rw [hstep, hu, hd]⟩

theorem parseAux_tail (p : Publication) (restLines : List (List Char)) (q : ParsedPub) :
    parseAux (("  description: ".data ++ p.description.data) ::
      ("  authors: ".data ++ p.authors.data) ::
      (yearPreL ++ (intStr p.year).data) ::
      ("  harvard: |".data) ::
      ("    ".data ++ p.harvard.data) ::
      ("  link:".data) ::
      (urlPreL ++ p.link_url.data) ::
      (dispPreL ++ p.link_display.data) ::
      [] :: restLines) (some q) =
      parseAux restLines (some ⟨q.ptitle, some p.year, p.link_url, p.link_display⟩) := by
  rw [step_desc, step_auth, step_year, parseIntList_intStr, step_harv]
  obtain ⟨u, d, hc⟩ := step_content p.harvard.data
    (("  link:".data) :: (urlPreL ++ p.link_url.data) :: (dispPreL ++ p.link_display.data) ::
      [] :: restLines)
    ⟨q.ptitle, some p.year, q.purl, q.pdisplay⟩
  rw [hc, step_link, step_url, step_disp, step_nil_line, string_mk_data, string_mk_data]

theorem parseAux_block (p : Publication) (restLines : List (List Char)) (cur : Option ParsedPub) :
    parseAux ((titlePreL ++ (p.title.data ++ ['"'])) ::
      ("  description: ".data ++ p.description.data) ::
      ("  authors: ".data ++ p.authors.data) ::
      (yearPreL ++ (intStr p.year).data) ::
      ("  harvard: |".data) ::
      ("    ".data ++ p.harvard.data) ::
      ("  link:".data) ::
      (urlPreL ++ p.link_url.data) ::
      (dispPreL ++ p.link_display.data) ::
      [] :: restLines) cur =
      cur.toList ++ parseAux restLines (some (expectedParsed p)) := by
  cases cur with
  | none =>
    rw [step_title_none, parseAux_tail]
    simp [parseTitleVal_concat, expectedParsed]
  | some r =>
    rw [step_title_some, parseAux_tail]
    simp [parseTitleVal_concat, expectedParsed]

theorem splitLines_block (p : Publication) (rest : List Char) (h : renderSafe p) :
    splitLines ((pubStr p ++ "\n").data ++ rest) =
      (titlePreL ++ (p.title.data ++ ['"'])) ::
      ("  description: ".data ++ p.description.data) ::
      ("  authors: ".data ++ p.authors.data) ::
      (yearPreL ++ (intStr p.year).data) ::
      ("  harvard: |".data) ::
      ("    ".data ++ p.harvard.data) ::
      ("  link:".data) ::
      (urlPreL ++ p.link_url.data) ::
      (dispPreL ++ p.link_display.data) ::
      [] :: splitLines rest := by
  obtain ⟨hti, hde, hau, hha, hur, hdi⟩ := h
  have e1 : ("\"\n" : String).data = ['"', '\n'] := rfl
  have e2 : ("\n" : String).data = ['\n'] := rfl
  have e3 : ("  harvard: |\n    " : String).data =
      "  harvard: |".data ++ '\n' :: "    ".data := rfl
  have e4 : ("  link:\n" : String).data = "  link:".data ++ ['\n'] := rfl
  have hdata : (pubStr p ++ "\n").data ++ rest =
      (titlePreL ++ (p.title.data ++ ['"'])) ++ '\n' ::
      (("  description: ".data ++ p.description.data) ++ '\n' ::
      (("  authors: ".data ++ p.authors.data) ++ '\n' ::
      ((yearPreL ++ (intStr p.year).data) ++ '\n' ::
      ("  harvard: |".data ++ '\n' ::
      (("    ".data ++ p.harvard.data) ++ '\n' ::
      ("  link:".data ++ '\n' ::
      ((urlPreL ++ p.link_url.data) ++ '\n' ::
      ((dispPreL ++ p.link_display.data) ++ '\n' ::
      ('\n' :: rest))))))))) := by
    simp [pubStr, String.data_append, e1, e2, e3, e4, titlePreL, yearPreL, urlPreL, dispPreL,
      List.append_assoc]
  rw [hdata]
  have hq : '\n' ∉ ['"'] := by decide
  have htpre : '\n' ∉ titlePreL := by decide
  have hdpre : '\n' ∉ "  description: ".data := by decide
  have hapre : '\n' ∉ "  authors: ".data := by decide
  have hypre : '\n' ∉ yearPreL := by decide
  have hhpre : '\n' ∉ "  harvard: |".data := by decide
  have hcpre : '\n' ∉ "    ".data := by decide
  have hlpre : '\n' ∉ "  link:".data := by decide
  have hupre : '\n' ∉ urlPreL := by decide
  have hppre : '\n' ∉ dispPreL := by decide
  rw [splitLines_append_newline _ _ (noNL_append htpre (noNL_append hti hq))]
  rw [splitLines_append_newline _ _ (noNL_append hdpre hde)]
  rw [splitLines_append_newline _ _ (noNL_append hapre hau)]
  rw [splitLines_append_newline _ _ (noNL_append hypre (intStr_no_newline p.year))]
  rw [splitLines_append_newline _ _ hhpre]
  rw [splitLines_append_newline _ _ (noNL_append hcpre hha)]
  rw [splitLines_append_newline _ _ hlpre]
  rw [splitLines_append_newline _ _ (noNL_append hupre hur)]
  rw [splitLines_append_newline _ _ (noNL_append hppre hdi)]
  rw [splitLines_newline_cons]

theorem parse_write : ∀ (ps : List Publication), (∀ p ∈ ps, renderSafe p) →
    ∀ cur, parseAux (splitLines (write_publications ps).data) cur =
      cur.toList ++ ps.map expectedParsed := by
  intro ps
  induction ps with
  | nil =>
    intro _ cur
    cases cur with
    | none => rfl
    | some q => rfl
  | cons p rest ih =>
    intro h cur
    have hdata2 : (write_publications (p :: rest)).data =
        (pubStr p ++ "\n").data ++ (write_publications rest).data := by
      show (pubStr p ++ "\n" ++ write_publications rest).data = _
      rw [String.data_append]
    rw [hdata2, splitLines_block p _ (h p (List.mem_cons_self p rest)), parseAux_block,
      ih (fun x hx => h x (List.mem_cons_of_mem p hx)) (some (expectedParsed p))]
    simp

theorem parse_write_publications (ps : List Publication) (h : ∀ p ∈ ps, renderSafe p) :
    parsePublications (write_publications ps) = ps.map expectedParsed := by
  unfold parsePublications
  rw [parse_write ps h none]
  rfl

/-! ## Claims -/

/-- C1 counterexample: the all-or-nothing wording also covers runs in which
an identifier yields no Publication because construction raises; there the
exception propagates out of main (pool.map re-raises it in the caller)
instead of producing the aborted status 1.  Concretely: the identifier list
is retrieved, the detail reply has count one, but the detail record is
missing the title key, so main raises KeyError rather than returning 1. -/
theorem c1_counterexample :
    get_publication_ids c1BadEnv = Except.ok (some [JVal.str "a"]) ∧
    enrich_publication c1BadEnv (JVal.str "a") = Except.error PyErr.keyError ∧
    Pipeline.main c1BadEnv = Except.error PyErr.keyError :=
  ⟨rfl, rfl, rfl⟩

/-- C1 amended: all-or-nothing aggregation restricted to the runs in which
every enrichment completes without raising.  If the identifier list is
retrieved, every enrichment returns a value (a Publication or None) rather
than raising, and at least one identifier yields None (fetch failure or
unexpected count), then main returns the aborted status 1 and writes
nothing at all to the output target, regardless of how many other
identifiers were enriched successfully; an enrichment that raises instead
propagates its exception out of main. -/
theorem c1_amended (env : Env) (ids : List JVal)
    (hids : get_publication_ids env = Except.ok (some ids))
    (hok : ∀ x ∈ ids, isOkB (enrich_publication env x) = true)
    (hfail : ∃ x ∈ ids, enrich_publication env x = Except.ok none) :
    Pipeline.main env = Except.ok (1, none) :=
  main_abort env ids hids hok hfail

/-- Witness for the amended C1: a concrete environment with two identifiers,
the first enriched successfully and the second unreachable, aborts with
status 1 and no output. -/
theorem c1_amended_witness :
    get_publication_ids c1Env = Except.ok (some [JVal.str "a", JVal.str "b"]) ∧
    isOkB (enrich_publication c1Env (JVal.str "a")) = true ∧
    enrich_publication c1Env (JVal.str "b") = Except.ok none ∧
    Pipeline.main c1Env = Except.ok (1, none) := by
  refine ⟨rfl, rfl, rfl, ?_⟩
  refine c1_amended c1Env [JVal.str "a", JVal.str "b"] rfl ?_ ?_
  · intro x hx
    rcases List.mem_cons.mp hx with rfl | hx2
    · rfl
    · rcases List.mem_cons.mp hx2 with rfl | hx3
      · rfl
      · cases hx3
  · exact ⟨JVal.str "b", List.mem_cons_of_mem _ (List.mem_cons_self _ _), rfl⟩

/-- C2 counterexample: the resolver filters by substring containment, not by
host.  On this citation text it links to the first URL, which merely contains
eprints.soton.ac.uk in its query and whose host is a.b, while the first URL
whose host really is the institutional host is the second one. -/
theorem c2_counterexample :
    add_link mixedHarvard "" ("", "") =
      Except.ok ("https://a.b/?eprints.soton.ac.uk", "Read more") ∧
    specFirstInstitutional mixedHarvard = some "https://eprints.soton.ac.uk/1" ∧
    ("https://a.b/?eprints.soton.ac.uk" : String) ≠ "https://eprints.soton.ac.uk/1" := by
  refine ⟨rfl, rfl, ?_⟩
  decide

/-- C2 amended: with institutional membership read as the code implements it
(the URL contains the substring eprints.soton.ac.uk anywhere, not necessarily
as its host), for every citation text and every DOI value, whenever the
filtered list is nonempty the resolver links to its first URL in extraction
order with display label Read more. -/
theorem c2_amended (harvard doi : String) (u : String) (rest : List String)
    (h : (findUrls harvard).filter (fun s => strIn eprintsHost.data s.data) = u :: rest) :
    add_link harvard doi ("", "") = Except.ok (u, NO_DOI_LINK_DISPLAY) :=
  add_link_eprints harvard doi u rest h

/-- Witness for the amended C2: on the concrete text the first
substring-institutional URL is linked even though a DOI is present. -/
theorem c2_amended_witness :
    add_link mixedHarvard "https://doi.org/10.1/ignored" ("", "") =
      Except.ok ("https://a.b/?eprints.soton.ac.uk", NO_DOI_LINK_DISPLAY) :=
  c2_amended mixedHarvard "https://doi.org/10.1/ignored"
    "https://a.b/?eprints.soton.ac.uk" ["https://eprints.soton.ac.uk/1"] rfl

/-- C3: when zero URLs are extracted from the citation text, a well-formed
DOI https://doi.org/X resolves the link to (doi, X) with X the first
extracted suffix, and an absent DOI leaves the link ("", ""). -/
theorem c3_doi_fallback (harvard doi : String) (h : findUrls harvard = []) :
    (doi = "" → add_link harvard doi ("", "") = Except.ok ("", "")) ∧
    (∀ X : String, doi = "https://doi.org/" ++ X → '\n' ∉ X.data →
      add_link harvard doi ("", "") = Except.ok (doi, X)) := by
  constructor
  · intro hd
    rw [add_link_no_urls harvard doi ("", "") h, if_pos hd]
  · intro X hX hnl
    rw [add_link_no_urls harvard doi ("", "") h,
      if_neg (by rw [hX]; exact doi_prefix_ne_empty X)]
    unfold add_link_from_doi
    rw [hX, findDoi_wellformed X hnl]

/-- Witness for C3 on a citation text with no quoted URLs: a well-formed DOI
resolves to (doi, suffix) and the empty DOI resolves to ("", ""). -/
theorem c3_witness :
    add_link "plain citation text" "https://doi.org/10.99/z" ("", "") =
      Except.ok ("https://doi.org/10.99/z", "10.99/z") ∧
    add_link "plain citation text" "" ("", "") = Except.ok ("", "") := by
  constructor
  · exact (c3_doi_fallback "plain citation text" "https://doi.org/10.99/z" rfl).2
      "10.99/z" rfl (by decide)
  · exact (c3_doi_fallback "plain citation text" "" rfl).1 rfl

/-- C4: the link resolver is total: for every citation text, DOI string and
starting link state it terminates with a definite (url, display) pair and
never raises; in particular the eprints_urls[0] fall-through after an empty
filter result is unreachable. -/
theorem c4_resolver_total (harvard doi : String) (st : String × String) :
    ∃ p, add_link harvard doi st = Except.ok p :=
  add_link_ok harvard doi st

/-- C5 (code bug): _format_authors places None in the joined list for every
contributor whose role is not Author instead of dropping the entry, so
str.join raises TypeError as soon as any non-author contributor is present;
with only Author contributors the comma-joined format is produced. -/
theorem c5_format_authors_bug :
    format_authors [⟨"Jane", "Doe", "Editor"⟩] = Except.error PyErr.typeError ∧
    format_authors [⟨"A", "B", "Author"⟩, ⟨"C", "D", "Author"⟩] = Except.ok "A B, C D" := by
  constructor <;> rfl

/-- C6 counterexample: a raw details value with the title key missing makes
Publication construction raise KeyError instead of treating the field as
empty, refuting that construction always succeeds at the object level. -/
theorem c6_counterexample :
    Publication.init "p1" noTitleDetailsJ = Except.error PyErr.keyError := rfl

/-- C6 amended: Publication construction does not always succeed at the
object level: whenever any of the five required keys title, persons, year,
harvard or doi is absent from the raw details record, the corresponding
dict subscript makes construction raise an exception instead of treating
the missing field as falsy or empty. -/
theorem c6_amended (pid : String) (fs : List (String × JVal))
    (h : jLookup fs "title" = none ∨ jLookup fs "persons" = none ∨
      jLookup fs "year" = none ∨ jLookup fs "harvard" = none ∨
      jLookup fs "doi" = none) :
    ∃ e, Publication.init pid (JVal.obj fs) = Except.error e := by
  refine (isOkB_eq_false (Publication.init pid (JVal.obj fs))).mp ?_
  rw [init_ok_iff]
  rcases h with h | h | h | h | h <;> simp [detailsComplete, h]

/-- Witness for the amended C6: the concrete record missing its title key
makes construction fail. -/
theorem c6_amended_witness :
    ∃ e, Publication.init "p1" noTitleDetailsJ = Except.error e :=
  c6_amended "p1" [("persons", JVal.arr [JVal.obj [("firstname", JVal.str "A"),
    ("lastname", JVal.str "B"), ("role", JVal.str "Author")]]),
    ("year", JVal.int 2020), ("harvard", JVal.str "h"), ("doi", JVal.str "")]
    (Or.inl rfl)

/-- C7: the pipeline sort orders by year descending then first author
ascending; it is total, a permutation, and stable (key-equal publications
keep their relative order); on the example of the specification the output
order is Adams(2021), Smith(2021), Jones(2020). -/
theorem c7_sorting :
    (sortPublications [smithPub, jonesPub, adamsPub] = [adamsPub, smithPub, jonesPub]) ∧
    (∀ ps, List.Sorted pubR (sortPublications ps)) ∧
    (∀ ps, List.Perm (sortPublications ps) ps) ∧
    (∀ ps (y : Int) (fa : String),
      (sortPublications ps).filter (fun p => decide (p.year = y ∧ p.first_author = fa)) =
        ps.filter (fun p => decide (p.year = y ∧ p.first_author = fa))) ∧
    (∀ x y, pubR x y ∨ pubR y x) := by
  refine ⟨?_, sortPublications_sorted, sortPublications_perm,
    sortPublications_stable, pubR_total⟩
  decide

/-- C8 counterexample: a 200 reply whose body is not valid JSON makes main
raise the json decoding error instead of returning an integer status, so main
does not shield the caller from every remote-response environment. -/
theorem c8_counterexample : Pipeline.main c8Env = Except.error PyErr.jsonError := rfl

/-- C8 amended: over environments in which every consumed response is
unreachable, a non-200 reply, or well-formed JSON of the expected shape, main
returns status 0 or 1 and never raises; outside this set (malformed JSON
bodies or bodies missing expected keys) main can raise. -/
theorem c8_amended (env : Env) (h : BenignEnv env) :
    ∃ st out, Pipeline.main env = Except.ok (st, out) ∧ (st = 0 ∨ st = 1) :=
  main_benign env h

/-- Witness for the amended C8 on the all-unreachable environment. -/
theorem c8_amended_witness :
    BenignEnv unreachableEnv ∧
    ∃ st out, Pipeline.main unreachableEnv = Except.ok (st, out) ∧ (st = 0 ∨ st = 1) := by
  have hb : BenignEnv unreachableEnv := ⟨trivial, fun _ => trivial⟩
  exact ⟨hb, c8_amended unreachableEnv hb⟩

/-- C9 counterexample: a publication whose title contains a newline renders
the title across two lines, and field-by-field re-parsing of the rendered
text recovers the title "a" instead of the original two-line title. -/
theorem c9_counterexample :
    parsePublications (write_publications [nlPub]) =
      [⟨"a", some 2020, "u", "d"⟩] ∧
    expectedParsed nlPub ≠ ⟨"a", some 2020, "u", "d"⟩ := by
  constructor
  · rfl
  · decide

/-- C9 amended: for every list of publications whose rendered string fields
(title, description, authors, harvard, link url, link display) are free of
newlines, re-parsing the rendered text recovers the title, year, link url and
link display of every publication, in order. -/
theorem c9_amended (ps : List Publication) (h : ∀ p ∈ ps, renderSafe p) :
    parsePublications (write_publications ps) = ps.map expectedParsed :=
  parse_write_publications ps h

/-- Witness for the amended C9 on a concrete newline-free publication. -/
theorem c9_amended_witness :
    parsePublications (write_publications [roundPub]) = [expectedParsed roundPub] := by
  apply c9_amended
  intro p hp
  rcases List.mem_cons.mp hp with rfl | h2
  · exact ⟨by unfold noNL; decide, by unfold noNL; decide, by unfold noNL; decide,
      by unfold noNL; decide, by unfold noNL; decide, by unfold noNL; decide⟩
  · cases h2

/-- C10: URL extraction only captures substrings that start with http: or
https: and are terminated by a later double quote in the citation text; a
text with no double quote at all yields zero extracted URLs, even if it
contains an unquoted institutional URL, and resolution then falls through to
the DOI-or-empty branch. -/
theorem c10_url_extraction :
    (∀ h : String, '"' ∉ h.data → findUrls h = []) ∧
    (∀ (h u : String), u ∈ findUrls h →
      (listPre httpL u.data = true ∨ listPre httpsL u.data = true) ∧
      ∃ a b, h.data = a ++ u.data ++ '"' :: b) ∧
    (∀ h doi : String, '"' ∉ h.data →
      add_link h doi ("", "") =
        (if doi = "" then Except.ok ("", "")
         else Except.ok (add_link_from_doi doi ("", "")))) := by
  refine ⟨?_, ?_, ?_⟩
  · intro h hq
    exact findUrls_no_quote h hq
  · intro h u hu
    exact findUrls_spec h u hu
  · intro h doi hq
    exact add_link_no_urls h doi ("", "") (findUrls_no_quote h hq)

/-- Witness for C10: a citation text carrying an unquoted institutional URL
yields zero extracted URLs and the resolver returns the empty link. -/
theorem c10_witness :
    findUrls "cite https://eprints.soton.ac.uk/1 unquoted" = [] ∧
    add_link "cite https://eprints.soton.ac.uk/1 unquoted" "" ("", "") =
      Except.ok ("", "") := by
  constructor
  · exact c10_url_extraction.1 "cite https://eprints.soton.ac.uk/1 unquoted" (by decide)
  · have h := c10_url_extraction.2.2 "cite https://eprints.soton.ac.uk/1 unquoted" ""
      (by decide)
    simpa using h
